import Mathlib

/-!
The chart cache of `operator/helm/helm.go`.

A shallow embedding of `ChartCache.Fetch`, `ChartCache.cache` and `fanout`, together with
the parts of the Go standard library they call (`io.TeeReader`, `io.Copy` into
`ioutil.Discard`, `os.Stat`, `os.OpenFile`, `os.Remove`, `path.Join`, `crypto/sha256`).

* The file system is a map from paths to contents; every operation takes the current
  file system and returns the new one.
* `osStat` and `osOpenFile` are fields of `ChartCache`, as in the source, so that any
  behaviour can be injected; `NewChartCache` installs the models of `os.Stat` and
  `os.OpenFile`, which fail where the environment `OS` says so. What the environment
  does at a path does not change between calls.
* A stream is the finite script of what its `Read` calls return.
* `os.Remove` is called directly by the source, so `Fetch` and `cache` take the
  environment `OS` as an argument; a removal can fail, and the source discards its
  result. Closing a file or a response body changes nothing that is modelled.
* Every call of `Fetch` also returns the list of the operations it performed (probe, GET,
  lock, open, copy, remove, unlock), in order.
* Concurrent calls are interleavings of the steps of `stepPc`; a call that runs alone
  takes those steps to the result of `Fetch` (`run_alone`).
-/

namespace Helm

/-! ## Bytes and `crypto/sha256` -/

abbrev Byte := Fin 256

/-- Round constants of SHA-256 (FIPS 180-4, section 4.2.2). -/
def K256 : List Nat := [
  0x428a2f98, 0x71374491, 0xb5c0fbcf, 0xe9b5dba5, 0x3956c25b, 0x59f111f1, 0x923f82a4, 0xab1c5ed5,
  0xd807aa98, 0x12835b01, 0x243185be, 0x550c7dc3, 0x72be5d74, 0x80deb1fe, 0x9bdc06a7, 0xc19bf174,
  0xe49b69c1, 0xefbe4786, 0x0fc19dc6, 0x240ca1cc, 0x2de92c6f, 0x4a7484aa, 0x5cb0a9dc, 0x76f988da,
  0x983e5152, 0xa831c66d, 0xb00327c8, 0xbf597fc7, 0xc6e00bf3, 0xd5a79147, 0x06ca6351, 0x14292967,
  0x27b70a85, 0x2e1b2138, 0x4d2c6dfc, 0x53380d13, 0x650a7354, 0x766a0abb, 0x81c2c92e, 0x92722c85,
  0xa2bfe8a1, 0xa81a664b, 0xc24b8b70, 0xc76c51a3, 0xd192e819, 0xd6990624, 0xf40e3585, 0x106aa070,
  0x19a4c116, 0x1e376c08, 0x2748774c, 0x34b0bcb5, 0x391c0cb3, 0x4ed8aa4a, 0x5b9cca4f, 0x682e6ff3,
  0x748f82ee, 0x78a5636f, 0x84c87814, 0x8cc70208, 0x90befffa, 0xa4506ceb, 0xbef9a3f7, 0xc67178f2]

/-- Initial hash value of SHA-256 (FIPS 180-4, section 5.3.3). -/
def H256 : List Nat :=
  [0x6a09e667, 0xbb67ae85, 0x3c6ef372, 0xa54ff53a, 0x510e527f, 0x9b05688c, 0x1f83d9ab, 0x5be0cd19]

/-- A 32-bit word: arithmetic is modulo 2^32. -/
def w32 (x : Nat) : Nat := x % 4294967296

def rotr (x n : Nat) : Nat := w32 ((x >>> n) ||| (x <<< (32 - n)))

def bsig0 (x : Nat) : Nat := rotr x 2 ^^^ rotr x 13 ^^^ rotr x 22

def bsig1 (x : Nat) : Nat := rotr x 6 ^^^ rotr x 11 ^^^ rotr x 25

def ssig0 (x : Nat) : Nat := rotr x 7 ^^^ rotr x 18 ^^^ (x >>> 3)

def ssig1 (x : Nat) : Nat := rotr x 17 ^^^ rotr x 19 ^^^ (x >>> 10)

def ch (x y z : Nat) : Nat := (x &&& y) ^^^ ((4294967295 - x) &&& z)

def maj (x y z : Nat) : Nat := (x &&& y) ^^^ (x &&& z) ^^^ (y &&& z)

/-- Extends the message schedule by `n` words; `rev` holds the words computed so far,
newest first. -/
def extend : Nat → List Nat → List Nat
  | 0, rev => rev
  | n + 1, rev =>
    let x := w32 (ssig1 (rev.getD 1 0) + rev.getD 6 0 + ssig0 (rev.getD 14 0) + rev.getD 15 0)
    extend n (x :: rev)

def be32 : List Byte → Nat
  | [a, b, c, d] => ((a.val * 256 + b.val) * 256 + c.val) * 256 + d.val
  | _ => 0

def words : Nat → List Byte → List Nat
  | 0, _ => []
  | n + 1, bs => be32 (bs.take 4) :: words n (bs.drop 4)

def schedule (block : List Byte) : List Nat :=
  (extend 48 (words 16 block).reverse).reverse

def round (s : List Nat) (kw : Nat × Nat) : List Nat :=
  match s with
  | [a, b, c, d, e, f, g, h] =>
    let t1 := h + bsig1 e + ch e f g + kw.1 + kw.2
    let t2 := bsig0 a + maj a b c
    [w32 (t1 + t2), a, b, c, w32 (d + t1), e, f, g]
  | _ => s

def compress (s : List Nat) (block : List Byte) : List Nat :=
  List.zipWith (fun x y => w32 (x + y)) s ((K256.zip (schedule block)).foldl round s)

def blocks : Nat → List Nat → List Byte → List Nat
  | 0, s, _ => s
  | n + 1, s, bs => blocks n (compress s (bs.take 64)) (bs.drop 64)

/-- The `n` low bytes of `x`, most significant first. -/
def beBytes : Nat → Nat → List Byte
  | 0, _ => []
  | n + 1, x => Fin.ofNat ((x >>> (8 * n)) % 256) :: beBytes n x

def pad (m : List Byte) : List Byte :=
  m ++ [128] ++ List.replicate ((119 - m.length % 64) % 64) 0 ++ beBytes 8 (8 * m.length)

/-- The SHA-256 digest of a message: what `h.Sum(nil)` returns once `m` was written to
`h := sha256.New()`. -/
def sum256 (m : List Byte) : List Byte :=
  let p := pad m
  (blocks (p.length / 64) H256 p).flatMap (beBytes 4)

def hexDigit (n : Nat) : Char := "0123456789abcdef".data.getD n '0'

/-- Lowercase hexadecimal of a byte string: `fmt.Sprintf("%x", bs)`. -/
def hex (bs : List Byte) : String :=
  String.mk (bs.flatMap fun b => [hexDigit (b.val / 16), hexDigit (b.val % 16)])

def sha256Hex (m : List Byte) : String := hex (sum256 m)

/-! ## Errors -/

inductive Errno
  | ENOENT | EACCES | EBADF | EMFILE | ENOSPC | ENOTDIR | EPERM
  deriving DecidableEq, Repr

/-- What the environment can make a system call fail with. "No such file" is not among
them: whether a file exists is decided by the file system itself. -/
inductive Fault
  | EACCES | EMFILE | ENOSPC | ENOTDIR | EPERM
  deriving DecidableEq, Repr

def Fault.errno : Fault → Errno
  | .EACCES => .EACCES
  | .EMFILE => .EMFILE
  | .ENOSPC => .ENOSPC
  | .ENOTDIR => .ENOTDIR
  | .EPERM => .EPERM

/-- Error values, as the tree of the `fmt.Errorf` calls that built them. -/
inductive Error
  /-- The value io.EOF. -/
  | EOF
  /-- An os.PathError. -/
  | PathError (op path : String) (errno : Errno)
  /-- Any other leaf error (transport failure, broken body stream, short write). -/
  | other (msg : String)
  /-- The leaf fmt.Errorf("provided checksum %q does not match calculated %q", ..). -/
  | mismatch (provided calculated : String)
  /-- The wrapper fmt.Errorf("failed to cache %q: %w", filePath, err). -/
  | failedToCache (filePath : String) (err : Error)
  /-- The wrapper fmt.Errorf("failed to fetch chart from %q: %w", url, err). -/
  | failedToFetch (url : String) (err : Error)
  deriving DecidableEq, Repr

/-- Model of `io.ErrShortWrite`. -/
def ErrShortWrite : Error := .other "short write"

/-- Model of `os.IsNotExist`: looks through a `PathError` at the errno, not through
`fmt.Errorf` wrappers. -/
def IsNotExist : Error → Bool
  | .PathError _ _ .ENOENT => true
  | _ => false

/-! ## `path.Join` -/

def splitSlash : List Char → List (List Char)
  | [] => [[]]
  | c :: cs =>
    match splitSlash cs with
    | [] => [[]]
    | x :: xs => if c = '/' then [] :: x :: xs else (c :: x) :: xs

/-- One element of the path in `path.Clean`; `stack` is the cleaned path so far, last
element first. -/
def cleanStep (rooted : Bool) (stack : List (List Char)) (elem : List Char) :
    List (List Char) :=
  if elem = [] ∨ elem = ['.'] then stack
  else if elem = ['.', '.'] then
    match stack with
    | top :: rest => if top = ['.', '.'] then elem :: stack else rest
    | [] => if rooted then [] else [elem]
  else elem :: stack

def pathClean (p : String) : String :=
  let rooted := p.data.head? = some '/'
  let elems := ((splitSlash p.data).foldl (cleanStep rooted) []).reverse
  let out := (if rooted then "/" else "") ++ "/".intercalate (elems.map String.mk)
  if out = "" then "." else out

/-- Model of `path.Join(a, b)`. -/
def pathJoin (a b : String) : String :=
  if a = "" ∧ b = "" then ""
  else if a = "" then pathClean b
  else if b = "" then pathClean a
  else pathClean (a ++ "/" ++ b)

/-! ## The file system and `*os.File` -/

/-- The file system: the content of the file at each path, if there is one. -/
abbrev FS := String → Option (List Byte)

def FS.set (fs : FS) (name : String) (v : Option (List Byte)) : FS :=
  fun q => if q = name then v else fs q

def O_RDONLY : Nat := 0

def O_WRONLY : Nat := 1

def O_CREATE : Nat := 64

def O_TRUNC : Nat := 512

/-- The behaviour of the environment that the file system does not determine: which
probes, opens and removals fail (permissions, descriptor limits, an append-only
directory, ...) and after how many bytes a file at a path cannot grow further (quota,
full disk). -/
structure OS where
  statFault : String → Option Fault
  openFault : String → Nat → Option Fault
  limit : String → Option Nat
  removeFault : String → Option Fault

/-- An open file: its path, the flags it was opened with, the offset of the next write,
and the size beyond which writes fail. -/
structure File where
  name : String
  flag : Nat
  off : Nat
  limit : Option Nat
  deriving DecidableEq, Repr

structure FileInfo where
  Size : Nat
  deriving DecidableEq, Repr

deriving instance DecidableEq for Except

/-- Model of `os.Stat`. -/
def osStat (os : OS) (name : String) (fs : FS) : Except Error FileInfo :=
  match os.statFault name with
  | some e => .error (.PathError "stat" name e.errno)
  | none =>
    match fs name with
    | some c => .ok ⟨c.length⟩
    | none => .error (.PathError "stat" name .ENOENT)

/-- Model of `os.OpenFile`. Of the flags it interprets the access mode (the two low
bits: `O_RDONLY` is 0, `O_WRONLY` 1, `O_RDWR` 2), `O_CREATE` and `O_TRUNC`; a new file
is empty, an existing file keeps its content unless `O_TRUNC` is given, and the offset
of the handle is 0. The permission bits are not interpreted (a refused access is a fault
of `OS`). -/
def osOpenFile (os : OS) (name : String) (flag : Nat) (_perm : Nat) (fs : FS) :
    Except Error File × FS :=
  match os.openFault name flag with
  | some e => (.error (.PathError "open" name e.errno), fs)
  | none =>
    match fs name with
    | some _ =>
      if flag &&& O_TRUNC ≠ 0 ∧ flag &&& 3 ≠ 0 then
        (.ok ⟨name, flag, 0, os.limit name⟩, fs.set name (some []))
      else (.ok ⟨name, flag, 0, os.limit name⟩, fs)
    | none =>
      if flag &&& O_CREATE ≠ 0 then
        (.ok ⟨name, flag, 0, os.limit name⟩, fs.set name (some []))
      else (.error (.PathError "open" name .ENOENT), fs)

/-- Model of `os.Remove` on a regular file: where the environment refuses the removal the
file stays and the error is returned. -/
def osRemove (os : OS) (name : String) (fs : FS) : Option Error × FS :=
  match os.removeFault name with
  | some e => (some (.PathError "remove" name e.errno), fs)
  | none => (none, fs.set name none)

/-- The content `c` of a file after `p` was written at offset `off` (a gap is filled
with zero bytes). -/
def overlay (c : List Byte) (off : Nat) (p : List Byte) : List Byte :=
  (c ++ List.replicate (off - c.length) 0).take off ++ p ++ c.drop (off + p.length)

def writeAt (name : String) (off : Nat) (p : List Byte) (fs : FS) : FS :=
  match fs name with
  | some c => if p = [] then fs else fs.set name (some (overlay c off p))
  | none => fs

/-- Model of `(*os.File).Write`: writes at the offset as much of `p` as the limit allows
and reports an error when that is not all of it. -/
def File.Write (f : File) (p : List Byte) (fs : FS) : (Nat × Option Error) × File × FS :=
  if f.flag &&& 3 = 0 then ((0, some (.PathError "write" f.name .EBADF)), f, fs)
  else
    let n := match f.limit with
      | none => p.length
      | some l => min p.length (l - f.off)
    ((n, if n < p.length then some (.PathError "write" f.name .ENOSPC) else none),
      { f with off := f.off + n }, writeAt f.name f.off (p.take n) fs)

/-- Everything that can be read from an open file, from its offset to the end:
`ioutil.ReadAll`. -/
def File.ReadAll (f : File) (fs : FS) : List Byte :=
  ((fs f.name).getD []).drop f.off

/-! ## `io.Reader`, `io.Writer`, `io.TeeReader`, `io.Copy` -/

/-- A source stream, as the script of what its `Read` calls return: each of `chunks`
with a nil error, then `last` together with `err` (`io.EOF` at a clean end). -/
structure Reader where
  chunks : List (List Byte)
  last : List Byte
  err : Error
  deriving DecidableEq, Repr

def Reader.Read (r : Reader) : (List Byte × Option Error) × Reader :=
  match r.chunks with
  | c :: cs => ((c, none), { r with chunks := cs })
  | [] => ((r.last, some r.err), { r with last := [] })

/-- All the bytes a stream delivers. -/
def Reader.bytes (r : Reader) : List Byte := r.chunks.flatten ++ r.last

/-- An `io.Writer`: an open file, or a sink in memory that fails once `room` is used up
(`room = none`: it accepts every write, as a `hash.Hash` does). `got` records the bytes
the writer accepted, in order. -/
inductive Writer
  | file (f : File) (got : List Byte)
  | mem (got : List Byte) (room : Option Nat)
  deriving DecidableEq, Repr

def Writer.got : Writer → List Byte
  | .file _ g => g
  | .mem g _ => g

def Writer.Write (x : Writer) (p : List Byte) (fs : FS) : (Nat × Option Error) × Writer × FS :=
  match x with
  | .file f got =>
    match f.Write p fs with
    | ((n, e), f, fs) => ((n, e), .file f (got ++ p.take n), fs)
  | .mem got none => ((p.length, none), .mem (got ++ p) none, fs)
  | .mem got (some k) =>
    if p.length ≤ k then ((p.length, none), .mem (got ++ p) (some (k - p.length)), fs)
    else ((k, some ErrShortWrite), .mem (got ++ p.take k) (some 0), fs)

/-- Model of `sha256.New()`. -/
def sha256New : Writer := .mem [] none

/-- Model of `h.Sum(nil)`. -/
def Writer.Sum (h : Writer) : List Byte := sum256 h.got

/-- A reader built by `io.TeeReader` around a source. -/
inductive IoReader
  | src (r : Reader)
  | tee (r : IoReader) (w : Writer)
  deriving DecidableEq, Repr

def TeeReader (r : IoReader) (w : Writer) : IoReader := .tee r w

/-- One call of `Read`. For a tee reader: read from the inner reader, and if that gave
bytes write them to the writer; a failed write returns what `Write` returned. -/
def IoReader.Read : IoReader → FS → (List Byte × Option Error) × IoReader × FS
  | .src r, fs =>
    match r.Read with
    | (res, r) => (res, .src r, fs)
  | .tee r w, fs =>
    match r.Read fs with
    | ((p, err), r, fs) =>
      if p.length > 0 then
        match w.Write p fs with
        | ((n, some werr), w, fs) => ((p.take n, some werr), .tee r w, fs)
        | ((_, none), w, fs) => ((p, err), .tee r w, fs)
      else ((p, err), .tee r w, fs)

def IoReader.source : IoReader → Reader
  | .src r => r
  | .tee r _ => r.source

/-- The writers of a chain of tee readers, innermost first. -/
def IoReader.writers : IoReader → List Writer
  | .src _ => []
  | .tee r w => r.writers ++ [w]

/-- The loop of `ioutil.Discard.ReadFrom`, which `io.Copy(ioutil.Discard, ir)` runs:
read until an error, count the bytes, and report the error unless it is `io.EOF`. The
first argument bounds the number of iterations. -/
def discardReadFrom : Nat → IoReader → FS → Nat → (Nat × Option Error) × IoReader × FS
  | 0, ir, fs, n => ((n, some (.other "unreachable")), ir, fs)
  | fuel + 1, ir, fs, n =>
    match ir.Read fs with
    | ((p, some err), ir, fs) =>
      ((n + p.length, if err = .EOF then none else some err), ir, fs)
    | ((p, none), ir, fs) => discardReadFrom fuel ir fs (n + p.length)

/-- Model of `io.Copy(ioutil.Discard, ir)`. A stream of `k` chunks is read to its end by
`k + 1` calls of `Read`, so the bound is never reached (`discardReadFrom_fuel`). -/
def ioCopyDiscard (ir : IoReader) (fs : FS) : (Nat × Option Error) × IoReader × FS :=
  discardReadFrom (ir.source.chunks.length + 1) ir fs 0

/-- The function `fanout`: wraps the reader in one tee reader per writer and copies it
into `ioutil.Discard`. Returned with the result are the writers and the file system as
the copy left them. -/
def fanout (r : Reader) (ws : List Writer) (fs : FS) :
    (Nat × Option Error) × List Writer × FS :=
  let ir := ws.foldl TeeReader (.src r)
  match ioCopyDiscard ir fs with
  | (res, ir, fs) => (res, ir.writers, fs)

/-! ## The chart cache -/

/-- The operations a call performs, in the order it performs them. -/
inductive Event
  | stat (name : String)
  | openFile (name : String) (flag : Nat)
  | get (url : String)
  | lock
  | unlock
  | copy (name : String)
  | remove (name : String)
  deriving DecidableEq, Repr

/-- What a call leaves behind: its result, the file system, and the operations it
performed. -/
structure Outcome (α : Type) where
  val : α
  fs : FS
  events : List Event

structure ChartInfo where
  URL : String
  SHA256Sum : String
  deriving DecidableEq, Repr

/-- The part of `http.Response` the cache could look at. -/
structure Response where
  StatusCode : Nat
  Body : Reader
  deriving DecidableEq, Repr

/-- The struct `ChartCache`. Its mutex has no field here: `Lock` and `Unlock` appear as
events of a call, and as the lock of `Sys` where calls run concurrently. -/
structure ChartCache where
  cachePath : String
  osStat : String → FS → Except Error FileInfo
  osOpenFile : String → Nat → Nat → FS → Except Error File × FS
  httpGetter : String → Except Error Response

/-- The constructor `NewChartCache`; `os` is the environment behind `os.Stat` and
`os.OpenFile`, and `httpDefaultClient` the network behind `http.DefaultClient`. -/
def NewChartCache (os : OS) (httpDefaultClient : String → Except Error Response)
    (cachePath : String) : ChartCache :=
  { cachePath := cachePath
    osStat := osStat os
    osOpenFile := osOpenFile os
    httpGetter := httpDefaultClient }

/-- The method `ChartCache.cache`. It takes the mutex first and releases it, deferred,
on every return: the events `lock` and `unlock`. -/
def cache (os : OS) (cc : ChartCache) (filePath : String) (data : Reader)
    (sha256sum : String) (fs : FS) : Outcome (Option Error) :=
  match cc.osOpenFile filePath (O_CREATE ||| O_WRONLY) 0 fs with
  | (.error err, fs) =>
    ⟨some (.failedToCache filePath err), fs,
      [.lock, .openFile filePath (O_CREATE ||| O_WRONLY), .unlock]⟩
  | (.ok w, fs) =>
    let h := sha256New
    match fanout data [.file w [], h] fs with
    | ((_, some err), _, fs) =>
      -- w.Close(); os.Remove(filePath): the result of Remove is discarded
      ⟨some (.failedToCache filePath err), (osRemove os filePath fs).2,
        [.lock, .openFile filePath (O_CREATE ||| O_WRONLY), .copy filePath,
          .remove filePath, .unlock]⟩
    | ((_, none), ws, fs) =>
      let calculatedHashSum := hex (ws.getD 1 h).Sum
      if sha256sum ≠ calculatedHashSum then
        -- w.Close(); os.Remove(filePath): the result of Remove is discarded
        ⟨some (.failedToCache filePath (.mismatch sha256sum calculatedHashSum)),
          (osRemove os filePath fs).2,
          [.lock, .openFile filePath (O_CREATE ||| O_WRONLY), .copy filePath,
            .remove filePath, .unlock]⟩
      else
        ⟨none, fs,
          [.lock, .openFile filePath (O_CREATE ||| O_WRONLY), .copy filePath, .unlock]⟩

/-- The path of the cache entry of a chart: `path.Join(cc.cachePath, sum + ".tgz")`. -/
def entryPath (cc : ChartCache) (chartInfo : ChartInfo) : String :=
  pathJoin cc.cachePath (chartInfo.SHA256Sum ++ ".tgz")

/-- The method `ChartCache.Fetch`. The handle it returns is the `*os.File` that the
read-only open gave; `res.StatusCode` is not read. -/
def Fetch (os : OS) (cc : ChartCache) (chartInfo : ChartInfo) (fs : FS) :
    Outcome (Except Error File) :=
  let fileName := chartInfo.SHA256Sum ++ ".tgz"
  let filePath := pathJoin cc.cachePath fileName
  match cc.osStat filePath fs with
  | .ok _ =>
    match cc.osOpenFile filePath O_RDONLY 0 fs with
    | (.error err, fs) =>
      ⟨.error (.failedToFetch chartInfo.URL err), fs,
        [.stat filePath, .openFile filePath O_RDONLY]⟩
    | (.ok r, fs) => ⟨.ok r, fs, [.stat filePath, .openFile filePath O_RDONLY]⟩
  | .error err =>
    if !IsNotExist err then
      ⟨.error (.failedToFetch chartInfo.URL err), fs, [.stat filePath]⟩
    else
      match cc.httpGetter chartInfo.URL with
      | .error err =>
        ⟨.error (.failedToFetch chartInfo.URL err), fs,
          [.stat filePath, .get chartInfo.URL]⟩
      | .ok res =>
        match cache os cc filePath res.Body chartInfo.SHA256Sum fs with
        | ⟨some err, fs, ev⟩ =>
          ⟨.error (.failedToFetch chartInfo.URL err), fs,
            [.stat filePath, .get chartInfo.URL] ++ ev⟩
        | ⟨none, fs, ev⟩ =>
          match cc.osOpenFile filePath O_RDONLY 0 fs with
          | (.error err, fs) =>
            ⟨.error (.failedToFetch chartInfo.URL err), fs,
              [.stat filePath, .get chartInfo.URL] ++ ev ++ [.openFile filePath O_RDONLY]⟩
          | (.ok r, fs) =>
            ⟨.ok r, fs,
              [.stat filePath, .get chartInfo.URL] ++ ev ++ [.openFile filePath O_RDONLY]⟩

/-- The number of HTTP GETs among the operations of a call. -/
def gets (ev : List Event) : Nat :=
  (ev.filter fun e => match e with
    | .get _ => true
    | _ => false).length

/-! ## Lock discipline of a call -/

/-- Every existence probe among `ev` happens while the mutex is held. -/
def probesUnderLock : Bool → List Event → Bool
  | _, [] => true
  | _, .lock :: ev => probesUnderLock true ev
  | _, .unlock :: ev => probesUnderLock false ev
  | held, .stat _ :: ev => held && probesUnderLock held ev
  | held, _ :: ev => probesUnderLock held ev

/-- The operations of the write-and-verify sequence: opening the destination for
writing, the copy, and the removal of a rejected file. -/
def Event.writes : Event → Bool
  | .openFile _ flag => flag &&& 3 != 0
  | .copy _ => true
  | .remove _ => true
  | _ => false

/-- Where a call stands with respect to its critical section. -/
inductive Phase
  | before | inside | after
  deriving DecidableEq, Repr

/-- The lock discipline of the write-and-verify sequence: the mutex is taken at most once,
when free, and released once, when held; every operation of the sequence happens
between the two; and the mutex is free at the end. -/
def lockDiscipline : Phase → List Event → Bool
  | ph, [] => ph != .inside
  | ph, .lock :: ev => ph == .before && lockDiscipline .inside ev
  | ph, .unlock :: ev => ph == .inside && lockDiscipline .after ev
  | ph, e :: ev => (ph == .inside || !e.writes) && lockDiscipline ph ev

/-! ## Concurrent calls

Calls of `Fetch` on one cache, interleaved at the granularity of the operations above:
each step of a call is one system call, one lock operation, or one iteration of the copy
loop. The file system and the mutex are shared. -/

/-- Where a call of `Fetch` stands. -/
inductive Pc
  /-- About to probe with osStat. -/
  | start
  /-- The probe found the file: about to open it read-only. -/
  | openHit
  /-- The probe found no file: about to GET. -/
  | get
  /-- In cache: about to take the mutex. -/
  | lock (data : Reader)
  /-- Holding the mutex: about to open the destination. -/
  | openW (data : Reader)
  /-- In the loop of io.Copy: about to call Read. -/
  | copy (ir : IoReader) (n : Nat)
  /-- The copy ended without error: about to compare the checksums. -/
  | check (ir : IoReader)
  /-- About to close and remove the destination, then fail with the error. -/
  | remove (err : Error)
  /-- The deferred Unlock, then return from cache. -/
  | unlock (res : Option Error)
  /-- Back in Fetch after a successful cache: about to open the file read-only. -/
  | reopen
  /-- Fetch has returned. -/
  | done (res : Except Error File)
  /-- The caller has read the returned handle to its end. -/
  | consumed (f : File) (content : List Byte)
  deriving DecidableEq, Repr

structure Sys where
  fs : FS
  locked : Bool
  calls : List Pc

/-- One step of a call standing at `pc`: the new file system, lock and position, or
`none` when the call cannot move (it waits for the mutex, or it is over). -/
def stepPc (os : OS) (cc : ChartCache) (chartInfo : ChartInfo) (fs : FS) (locked : Bool) :
    Pc → Option (FS × Bool × Pc)
  | .start =>
    match cc.osStat (entryPath cc chartInfo) fs with
    | .ok _ => some (fs, locked, .openHit)
    | .error err =>
      if !IsNotExist err then
        some (fs, locked, .done (.error (.failedToFetch chartInfo.URL err)))
      else some (fs, locked, .get)
  | .openHit =>
    match cc.osOpenFile (entryPath cc chartInfo) O_RDONLY 0 fs with
    | (.error err, fs) => some (fs, locked, .done (.error (.failedToFetch chartInfo.URL err)))
    | (.ok r, fs) => some (fs, locked, .done (.ok r))
  | .get =>
    match cc.httpGetter chartInfo.URL with
    | .error err => some (fs, locked, .done (.error (.failedToFetch chartInfo.URL err)))
    | .ok res => some (fs, locked, .lock res.Body)
  | .lock data => if locked then none else some (fs, true, .openW data)
  | .openW data =>
    match cc.osOpenFile (entryPath cc chartInfo) (O_CREATE ||| O_WRONLY) 0 fs with
    | (.error err, fs) =>
      some (fs, locked, .unlock (some (.failedToCache (entryPath cc chartInfo) err)))
    | (.ok w, fs) =>
      some (fs, locked, .copy ([Writer.file w [], sha256New].foldl TeeReader (.src data)) 0)
  | .copy ir n =>
    match ir.Read fs with
    | ((_, some err), ir, fs) =>
      if err = .EOF then some (fs, locked, .check ir) else some (fs, locked, .remove err)
    | ((p, none), ir, fs) => some (fs, locked, .copy ir (n + p.length))
  | .check ir =>
    let calculatedHashSum := hex (ir.writers.getD 1 sha256New).Sum
    if chartInfo.SHA256Sum ≠ calculatedHashSum then
      some (fs, locked, .remove (.mismatch chartInfo.SHA256Sum calculatedHashSum))
    else some (fs, locked, .unlock none)
  | .remove err =>
    some ((osRemove os (entryPath cc chartInfo) fs).2, locked,
      .unlock (some (.failedToCache (entryPath cc chartInfo) err)))
  | .unlock (some err) =>
    some (fs, false, .done (.error (.failedToFetch chartInfo.URL err)))
  | .unlock none => some (fs, false, .reopen)
  | .reopen =>
    match cc.osOpenFile (entryPath cc chartInfo) O_RDONLY 0 fs with
    | (.error err, fs) => some (fs, locked, .done (.error (.failedToFetch chartInfo.URL err)))
    | (.ok r, fs) => some (fs, locked, .done (.ok r))
  | .done (.ok f) => some (fs, locked, .consumed f (f.ReadAll fs))
  | .done (.error _) => none
  | .consumed _ _ => none

/-- Call number `i` takes one step. -/
def step (os : OS) (cc : ChartCache) (chartInfo : ChartInfo) (i : Nat) (s : Sys) :
    Option Sys :=
  match s.calls.get? i with
  | none => none
  | some pc =>
    match stepPc os cc chartInfo s.fs s.locked pc with
    | none => none
    | some (fs, locked, pc) => some ⟨fs, locked, s.calls.set i pc⟩

/-- Runs a schedule: the list of the calls that move, in order. -/
def run (os : OS) (cc : ChartCache) (chartInfo : ChartInfo) : List Nat → Sys → Option Sys
  | [], s => some s
  | i :: sched, s =>
    match step os cc chartInfo i s with
    | none => none
    | some s => run os cc chartInfo sched s

/-- The start of `n` concurrent calls on the file system `fs`. -/
def Sys.init (n : Nat) (fs : FS) : Sys := ⟨fs, false, List.replicate n .start⟩

/-! ## Notions used in the statements -/

/-- A writer that accepts every write: a file open for writing with no limit, or a sink
in memory with unlimited room. -/
def Writer.acceptsAll : Writer → Bool
  | .file f _ => f.flag &&& 3 != 0 && f.limit.isNone
  | .mem _ room => room.isNone

/-- The reader `fanout` builds in `cache`: the source, teed into the file, teed into the
hash. -/
def chain2 (r : Reader) (f : File) (g h : List Byte) : IoReader :=
  .tee (.tee (.src r) (.file f g)) (.mem h none)

/-- A size that a limit allows. -/
def fits (limit : Option Nat) (k : Nat) : Prop := ∀ l, limit = some l → k ≤ l

/-- The file a successful `osOpenFile(filePath, O_CREATE|O_WRONLY, 0)` returns. -/
def destFile (os : OS) (filePath : String) : File :=
  ⟨filePath, O_CREATE ||| O_WRONLY, 0, os.limit filePath⟩

/-- The handle a successful read-only open of the cache entry returns. -/
def entryFile (os : OS) (filePath : String) : File := ⟨filePath, O_RDONLY, 0, os.limit filePath⟩

/-- The result of the read-only open that ends a successful `Fetch`. -/
def openResult (os : OS) (url name : String) (fs : FS) : Except Error File :=
  match os.openFault name O_RDONLY with
  | some e => .error (.failedToFetch url (.PathError "open" name e.errno))
  | none =>
    match fs name with
    | some _ => .ok (entryFile os name)
    | none => .error (.failedToFetch url (.PathError "open" name .ENOENT))

/-- A call running alone gets from one position to another in some number of steps. -/
def Reach (os : OS) (cc : ChartCache) (chartInfo : ChartInfo) (a b : FS × Bool × Pc) :
    Prop :=
  ∃ k, run os cc chartInfo (List.replicate k 0) ⟨a.1, a.2.1, [a.2.2]⟩
    = some ⟨b.1, b.2.1, [b.2.2]⟩

/-! ## Concrete environments -/

/-- An environment in which no system call fails and no file has a size limit. -/
def osFree : OS := ⟨fun _ => none, fun _ _ => none, fun _ => none, fun _ => none⟩

/-- An environment in which every probe is refused. -/
def osDenied : OS := ⟨fun _ => some .EACCES, fun _ _ => none, fun _ => none, fun _ => none⟩

/-- An environment in which no file can grow beyond two bytes. -/
def osFull : OS := ⟨fun _ => none, fun _ _ => none, fun _ => some 2, fun _ => none⟩

/-- An environment whose cache directory is append-only: files can be created and
written, and no file can be removed. -/
def osAppendOnly : OS := ⟨fun _ => none, fun _ _ => none, fun _ => none, fun _ => some .EPERM⟩

/-- The empty cache directory. -/
def emptyFS : FS := fun _ => none

/-- The bytes of "abc". -/
def abc : List Byte := [97, 98, 99]

/-- The body "abc", delivered in two pieces and ended cleanly. -/
def bodyAbc : Reader := ⟨[[97, 98]], [99], .EOF⟩

/-- A body that breaks after "ab". -/
def bodyBroken : Reader := ⟨[[97, 98]], [], .other "connection reset by peer"⟩

/-- A network that serves "abc" at one URL with status 200. -/
def netAbc : String → Except Error Response := fun url =>
  if url = "http://x/y.tgz" then .ok ⟨200, bodyAbc⟩ else .error (.other "no such host")

/-- A network that answers 404 with the body "abc". -/
def net404 : String → Except Error Response := fun _ => .ok ⟨404, bodyAbc⟩

/-- A network whose connection breaks after "ab". -/
def netBroken : String → Except Error Response := fun _ => .ok ⟨200, bodyBroken⟩

/-- A network that cannot be reached. -/
def netDown : String → Except Error Response := fun _ => .error (.other "no such host")

/-- The chart "abc" with its SHA-256 checksum. -/
def ciAbc : ChartInfo :=
  ⟨"http://x/y.tgz", "ba7816bf8f01cfea414140de5dae2223b00361a396177a9cb410ff61f20015ad"⟩

/-- The same URL with the checksum of the empty content. -/
def ciOther : ChartInfo :=
  ⟨"http://x/y.tgz", "e3b0c44298fc1c149afbf4c8996fb92427ae41e4649b934ca495991b7852b855"⟩

def ccAbc : ChartCache := NewChartCache osFree netAbc "/cache"

def abcPath : String :=
  "/cache/ba7816bf8f01cfea414140de5dae2223b00361a396177a9cb410ff61f20015ad.tgz"

def otherPath : String :=
  "/cache/e3b0c44298fc1c149afbf4c8996fb92427ae41e4649b934ca495991b7852b855.tgz"

/-- A cache directory whose entry for "abc" holds other bytes. -/
def staleFS : FS := emptyFS.set abcPath (some [1, 2, 3])

/-- A cache directory whose entry for "abc" holds five other bytes. -/
def longFS : FS := emptyFS.set abcPath (some [1, 2, 3, 4, 5])

/-- Two calls: the first probes, GETs, locks, opens and copies one piece; the second
then probes, opens, returns and reads; the first finishes. -/
def tornSchedule : List Nat := [0, 0, 0, 0, 0, 1, 1, 1, 0, 0, 0, 0, 0]

/-! # Theorems -/

set_option maxRecDepth 1000000

/-! ## The model of SHA-256 on the test vectors of FIPS 180-4 -/

theorem sha_empty :
    sha256Hex [] = "e3b0c44298fc1c149afbf4c8996fb92427ae41e4649b934ca495991b7852b855" := by
  decide

theorem sha_two_blocks :
    sha256Hex ("abcdbcdecdefdefgefghfghighijhijkijkljklmklmnlmnomnopnopq".data.map
        fun c => Fin.ofNat c.toNat)
      = "248d6a61d20638b8e5c026930c3e6039a33ce45964ff2167f6ecedd419db06c1" := by
  decide

theorem sha_abc : sha256Hex abc = ciAbc.SHA256Sum := by decide

theorem path_other : entryPath ccAbc ciOther = otherPath := by decide

theorem path_abc : entryPath ccAbc ciAbc = abcPath := by decide

/-! ## Streams -/

theorem foldl_tee_source (ws : List Writer) (acc : IoReader) :
    (ws.foldl TeeReader acc).source = acc.source := by
  induction ws generalizing acc with
  | nil => rfl
  | cons x xs ih => simp [List.foldl, ih, TeeReader, IoReader.source]

theorem foldl_tee_writers (ws : List Writer) (acc : IoReader) :
    (ws.foldl TeeReader acc).writers = acc.writers ++ ws := by
  induction ws generalizing acc with
  | nil => simp
  | cons x xs ih => simp [List.foldl, ih, TeeReader, IoReader.writers]

theorem Write_accepting (x : Writer) (p : List Byte) (fs : FS) (hx : x.acceptsAll = true) :
    ∃ y fs1, x.Write p fs = ((p.length, none), y, fs1) ∧ y.got = x.got ++ p ∧
      y.acceptsAll = true := by
  cases x with
  | file f g =>
    simp only [Writer.acceptsAll, Bool.and_eq_true, bne_iff_ne, ne_eq, Option.isNone_iff_eq_none] at hx
    obtain ⟨h1, h2⟩ := hx
    simp [Writer.Write, File.Write, h1, h2, Writer.got, Writer.acceptsAll]
  | mem g room =>
    cases room with
    | none => simp [Writer.Write, Writer.got, Writer.acceptsAll]
    | some k => simp [Writer.acceptsAll] at hx

/-- One `Read` of a chain whose writers accept every write returns what the source
returns and hands the bytes to every writer. -/
theorem Read_accepting (ir : IoReader) (fs : FS)
    (hws : ∀ x ∈ ir.writers, x.acceptsAll = true) :
    ∃ jr fs1, ir.Read fs = (ir.source.Read.1, jr, fs1) ∧ jr.source = ir.source.Read.2 ∧
      jr.writers.map Writer.got = ir.writers.map (fun x => x.got ++ ir.source.Read.1.1) ∧
      ∀ x ∈ jr.writers, x.acceptsAll = true := by
  induction ir generalizing fs with
  | src r => exact ⟨.src r.Read.2, fs, by simp [IoReader.Read, IoReader.source, IoReader.writers]⟩
  | tee r w ih =>
    obtain ⟨jr, fs1, h1, h2, h3, h4⟩ := ih fs (fun x hx => hws x (by simp [IoReader.writers, hx]))
    have hw : w.acceptsAll = true := hws w (by simp [IoReader.writers])
    by_cases hp : (r.source.Read.1.1).length > 0
    · obtain ⟨y, fs2, e1, e2, e3⟩ := Write_accepting w r.source.Read.1.1 fs1 hw
      refine ⟨.tee jr y, fs2, ?_, ?_, ?_, ?_⟩
      · simp [IoReader.Read, h1, hp, e1, IoReader.source]
      · simpa [IoReader.source] using h2
      · simp [IoReader.writers, h3, e2, IoReader.source]
      · intro x hx
        simp only [IoReader.writers, List.mem_append, List.mem_singleton] at hx
        rcases hx with hx | hx
        · exact h4 x hx
        · exact hx ▸ e3
    · refine ⟨.tee jr w, fs1, ?_, ?_, ?_, ?_⟩
      · simp [IoReader.Read, h1, hp, IoReader.source]
      · simpa [IoReader.source] using h2
      · have : r.source.Read.1.1 = [] := by
          cases h : r.source.Read.1.1 with
          | nil => rfl
          | cons a l => simp [h] at hp
        simp [IoReader.writers, h3, IoReader.source, this]
      · intro x hx
        simp only [IoReader.writers, List.mem_append, List.mem_singleton] at hx
        rcases hx with hx | hx
        · exact h4 x hx
        · exact hx ▸ hw

theorem discardReadFrom_succ (fuel : Nat) (ir : IoReader) (fs : FS) (n : Nat) :
    discardReadFrom (fuel + 1) ir fs n =
      match ir.Read fs with
      | ((p, some err), ir, fs) =>
        ((n + p.length, if err = .EOF then none else some err), ir, fs)
      | ((p, none), ir, fs) => discardReadFrom fuel ir fs (n + p.length) := rfl

theorem Read_nil (r : Reader) (h : r.chunks = []) :
    r.Read = ((r.last, some r.err), { r with last := [] }) := by
  simp [Reader.Read, h]

theorem Read_cons (r : Reader) (c : List Byte) (cs : List (List Byte)) (h : r.chunks = c :: cs) :
    r.Read = ((c, none), { r with chunks := cs }) := by
  simp [Reader.Read, h]

theorem copy_accepting (cs : List (List Byte)) : ∀ (ir : IoReader) (fs : FS) (n : Nat),
    ir.source.chunks = cs → ir.source.err = .EOF →
    (∀ x ∈ ir.writers, x.acceptsAll = true) →
    ∃ jr fs1, discardReadFrom (cs.length + 1) ir fs n
        = ((n + ir.source.bytes.length, none), jr, fs1) ∧
      jr.writers.map Writer.got = ir.writers.map (fun x => x.got ++ ir.source.bytes) := by
  induction cs with
  | nil =>
    intro ir fs n hcs herr hws
    obtain ⟨jr, fs1, h1, -, h3, -⟩ := Read_accepting ir fs hws
    rw [Read_nil _ hcs] at h1 h3
    refine ⟨jr, fs1, ?_, ?_⟩
    · simp [discardReadFrom, h1, Reader.bytes, hcs, herr]
    · simpa [Reader.bytes, hcs] using h3
  | cons c cs ih =>
    intro ir fs n hcs herr hws
    obtain ⟨jr, fs1, h1, h2, h3, h4⟩ := Read_accepting ir fs hws
    rw [Read_cons _ c cs hcs] at h1 h2 h3
    simp only at h1 h2 h3
    obtain ⟨kr, fs2, k1, k2⟩ := ih jr fs1 (n + c.length) (by simp [h2]) (by simp [h2, herr]) h4
    have hb : ir.source.bytes = c ++ jr.source.bytes := by
      simp [Reader.bytes, hcs, h2]
    refine ⟨kr, fs2, ?_, ?_⟩
    · rw [List.length_cons, discardReadFrom_succ, h1]
      simp only [k1, hb, List.length_append, Nat.add_assoc]
    · have e : jr.writers.map (fun x => x.got ++ jr.source.bytes)
          = (jr.writers.map Writer.got).map (fun g => g ++ jr.source.bytes) := by
        simp [List.map_map]
      rw [k2, e, h3, List.map_map]
      apply List.map_congr_left
      intro x _
      simp [hb]

theorem chain2_read_empty (r s : Reader) (f : File) (g h : List Byte) (fs : FS)
    (e : Option Error) (hR : r.Read = (([], e), s)) :
    (chain2 r f g h).Read fs = (([], e), chain2 s f g h, fs) := by
  simp [chain2, IoReader.Read, hR]

theorem chain2_read_fit (r s : Reader) (f : File) (g h p : List Byte) (fs : FS)
    (e : Option Error) (hR : r.Read = ((p, e), s)) (hp : p ≠ []) (hf : f.flag &&& 3 ≠ 0)
    (hfit : fits f.limit (f.off + p.length)) :
    (chain2 r f g h).Read fs
      = ((p, e), chain2 s { f with off := f.off + p.length } (g ++ p) (h ++ p),
          writeAt f.name f.off p fs) := by
  have hp0 : 0 < p.length := List.length_pos.mpr hp
  cases hl : f.limit with
  | none => simp [chain2, IoReader.Read, hR, hp0, Writer.Write, File.Write, hf, hl]
  | some l =>
    have := hfit l hl
    have hmin : min p.length (l - f.off) = p.length := by omega
    simp [chain2, IoReader.Read, hR, hp0, Writer.Write, File.Write, hf, hl, hmin]

theorem chain2_read_nofit (r s : Reader) (f : File) (g h p : List Byte) (fs : FS)
    (e : Option Error) (hR : r.Read = ((p, e), s)) (hp : p ≠ []) (hf : f.flag &&& 3 ≠ 0)
    (hfit : ¬ fits f.limit (f.off + p.length)) :
    ∃ q jr fs1, (chain2 r f g h).Read fs
      = ((q, some (.PathError "write" f.name .ENOSPC)), jr, fs1) := by
  cases hl : f.limit with
  | none => exact absurd (fun l h => by simp [hl] at h) hfit
  | some l =>
    have hlt : l < f.off + p.length := by
      by_contra hc
      refine hfit (fun l2 h2 => ?_)
      rw [hl] at h2
      cases h2
      omega
    have hp0 : 0 < p.length := List.length_pos.mpr hp
    have hmin : min p.length (l - f.off) = l - f.off := by omega
    have hlt2 : l - f.off < p.length := by omega
    simp only [chain2, IoReader.Read, hR, hp0, Writer.Write, File.Write, hf, hl, hmin, hlt2,
      if_true, if_false, gt_iff_lt]
    split <;> exact ⟨_, _, _, rfl⟩

theorem fits_mono {limit : Option Nat} {a b : Nat} (h : fits limit b) (hab : a ≤ b) :
    fits limit a := fun l hl => Nat.le_trans hab (h l hl)

theorem writeAt_append (name : String) (d p t : List Byte) (fs : FS)
    (hfs : fs name = some (d ++ t)) (hp : p ≠ []) :
    writeAt name d.length p fs = fs.set name (some ((d ++ p) ++ t.drop p.length)) := by
  have h0 : List.drop (d.length + p.length) d = [] := List.drop_eq_nil_of_le (by omega)
  simp [writeAt, hfs, hp, overlay, List.take_append_eq_append_take,
    List.drop_append_eq_append_drop, h0]

/-- The copy loop of `cache` on a destination that holds `d ++ t` with the write offset
after `d`: it ends without error exactly when the source ends in `io.EOF` and all its
bytes fit the limit, and then the file holds the bytes of the source after `d`, followed
by what `t` had beyond them, and the hash has absorbed the bytes. -/
theorem copy_chain2 (cs : List (List Byte)) : ∀ (r : Reader) (f : File) (g h : List Byte)
    (fs : FS) (n : Nat) (d t : List Byte),
    r.chunks = cs → f.flag &&& 3 ≠ 0 → f.off = d.length → fs f.name = some (d ++ t) →
    fits f.limit d.length →
    ((discardReadFrom (cs.length + 1) (chain2 r f g h) fs n).1.2 = none ↔
      (r.err = .EOF ∧ fits f.limit (d.length + r.bytes.length))) ∧
    ((discardReadFrom (cs.length + 1) (chain2 r f g h) fs n).1.2 = none →
      (discardReadFrom (cs.length + 1) (chain2 r f g h) fs n).2.2 f.name
        = some ((d ++ r.bytes) ++ t.drop r.bytes.length) ∧
      (discardReadFrom (cs.length + 1) (chain2 r f g h) fs n).2.1.writers.getD 1 sha256New
        = .mem (h ++ r.bytes) none) := by
  induction cs with
  | nil =>
    intro r f g h fs n d t hcs hf hoff hfs hd
    have hR := Read_nil r hcs
    have hb : r.bytes = r.last := by simp [Reader.bytes, hcs]
    by_cases hp : r.last = []
    · rw [hp] at hR
      have e1 := chain2_read_empty r _ f g h fs _ hR
      rw [discardReadFrom_succ, e1, hb, hp]
      by_cases he : r.err = .EOF
      · simp [he, hd, hfs, chain2, IoReader.writers]
      · simp [he]
    · by_cases hfit : fits f.limit (f.off + r.last.length)
      · have e1 := chain2_read_fit r _ f g h r.last fs _ hR hp hf hfit
        rw [discardReadFrom_succ, e1, hb, hoff, writeAt_append f.name d r.last t fs hfs hp]
        rw [hoff] at hfit
        by_cases he : r.err = .EOF
        · simp [he, hfit, chain2, IoReader.writers, FS.set]
        · simp [he]
      · obtain ⟨q, jr, fs1, e1⟩ := chain2_read_nofit r _ f g h r.last fs _ hR hp hf hfit
        rw [discardReadFrom_succ, e1, hb]
        rw [hoff] at hfit
        simp [hfit]
  | cons c cs ih =>
    intro r f g h fs n d t hcs hf hoff hfs hd
    have hR := Read_cons r c cs hcs
    have hb : r.bytes = c ++ ({ r with chunks := cs } : Reader).bytes := by
      simp [Reader.bytes, hcs]
    by_cases hp : c = []
    · rw [hp] at hR
      have e1 := chain2_read_empty r _ f g h fs _ hR
      have := ih { r with chunks := cs } f g h fs (n + 0) d t rfl hf hoff hfs hd
      rw [List.length_cons, discardReadFrom_succ, e1]
      simpa [hb, hp] using this
    · by_cases hfit : fits f.limit (f.off + c.length)
      · have e1 := chain2_read_fit r _ f g h c fs _ hR hp hf hfit
        rw [hoff] at hfit
        have := ih { r with chunks := cs } { f with off := f.off + c.length } (g ++ c) (h ++ c)
          (writeAt f.name f.off c fs) (n + c.length) (d ++ c) (t.drop c.length) rfl hf
          (by simp [hoff])
          (by rw [hoff, writeAt_append f.name d c t fs hfs hp]; simp [FS.set])
          (by simpa using hfit)
        rw [List.length_cons, discardReadFrom_succ, e1]
        simpa [hb, Nat.add_assoc, Nat.add_comm c.length] using this
      · obtain ⟨q, jr, fs1, e1⟩ := chain2_read_nofit r _ f g h c fs _ hR hp hf hfit
        rw [List.length_cons, discardReadFrom_succ, e1]
        rw [hoff] at hfit
        have : ¬ fits f.limit (d.length + r.bytes.length) := by
          intro hc
          exact hfit (fits_mono hc (by simp [hb]))
        simp [this]

theorem osOpenFile_dest (os : OS) (name : String) (fs : FS)
    (ho : os.openFault name (O_CREATE ||| O_WRONLY) = none) :
    ∃ fs1, osOpenFile os name (O_CREATE ||| O_WRONLY) 0 fs = (.ok (destFile os name), fs1) ∧
      fs1 name = some ((fs name).getD []) := by
  have h1 : ¬ ((O_CREATE ||| O_WRONLY) &&& O_TRUNC ≠ 0 ∧ (O_CREATE ||| O_WRONLY) &&& 3 ≠ 0) := by
    decide
  have h2 : (O_CREATE ||| O_WRONLY) &&& O_CREATE ≠ 0 := by decide
  cases hfs : fs name with
  | none =>
    refine ⟨fs.set name (some []), ?_, by simp [FS.set]⟩
    simp only [osOpenFile, ho, hfs, destFile]
    rw [if_pos h2]
  | some c =>
    refine ⟨fs, ?_, by simp [hfs]⟩
    simp only [osOpenFile, ho, hfs, destFile]
    rw [if_neg h1]

theorem osOpenFile_fault (os : OS) (name : String) (flag perm : Nat) (fs : FS) (e : Fault)
    (ho : os.openFault name flag = some e) :
    osOpenFile os name flag perm fs = (.error (.PathError "open" name e.errno), fs) := by
  simp [osOpenFile, ho]

theorem fanout_chain2 (data : Reader) (w : File) (fs : FS) :
    fanout data [.file w [], sha256New] fs
      = ((discardReadFrom (data.chunks.length + 1) (chain2 data w [] []) fs 0).1,
          (discardReadFrom (data.chunks.length + 1) (chain2 data w [] []) fs 0).2.1.writers,
          (discardReadFrom (data.chunks.length + 1) (chain2 data w [] []) fs 0).2.2) := by
  simp [fanout, ioCopyDiscard, List.foldl, TeeReader, chain2, sha256New, IoReader.source]

/-- What the copy in `cache` does, for the cache built by `NewChartCache`. -/
theorem fanout_dest (os : OS) (name : String) (data : Reader) (fs : FS) (c : List Byte)
    (hfs : fs name = some c) :
    ((fanout data [.file (destFile os name) [], sha256New] fs).1.2 = none ↔
      (data.err = .EOF ∧ fits (os.limit name) data.bytes.length)) ∧
    ((fanout data [.file (destFile os name) [], sha256New] fs).1.2 = none →
      (fanout data [.file (destFile os name) [], sha256New] fs).2.2 name
        = some (data.bytes ++ c.drop data.bytes.length) ∧
      ((fanout data [.file (destFile os name) [], sha256New] fs).2.1.getD 1 sha256New)
        = .mem data.bytes none) := by
  have h := copy_chain2 data.chunks data (destFile os name) [] [] fs 0 [] c rfl
    (by simp only [destFile]; decide) rfl (by simpa using hfs) (fun l _ => Nat.zero_le l)
  rw [fanout_chain2]
  simpa [destFile] using h

theorem cache_open_fault (os : OS) (net : String → Except Error Response) (dir name : String)
    (data : Reader) (sum : String) (fs : FS) (e : Fault)
    (ho : os.openFault name (O_CREATE ||| O_WRONLY) = some e) :
    (cache os (NewChartCache os net dir) name data sum fs).val
        = some (.failedToCache name (.PathError "open" name e.errno)) ∧
      (cache os (NewChartCache os net dir) name data sum fs).fs = fs := by
  simp [cache, NewChartCache, osOpenFile_fault os name _ 0 fs e ho]

/-- The three ways `cache` ends once the destination is open. After the two that fail
the file is gone where its removal is not refused; after a mismatch with a refused
removal the rejected bytes stay. -/
theorem cache_opened (os : OS) (net : String → Except Error Response) (dir name : String)
    (data : Reader) (sum : String) (fs : FS)
    (ho : os.openFault name (O_CREATE ||| O_WRONLY) = none) :
    (data.err = .EOF ∧ fits (os.limit name) data.bytes.length ∧ sum = sha256Hex data.bytes ∧
      (cache os (NewChartCache os net dir) name data sum fs).val = none ∧
      (cache os (NewChartCache os net dir) name data sum fs).fs name
        = some (data.bytes ++ ((fs name).getD []).drop data.bytes.length)) ∨
    (data.err = .EOF ∧ fits (os.limit name) data.bytes.length ∧ sum ≠ sha256Hex data.bytes ∧
      (cache os (NewChartCache os net dir) name data sum fs).val
        = some (.failedToCache name (.mismatch sum (sha256Hex data.bytes))) ∧
      (os.removeFault name = none →
        (cache os (NewChartCache os net dir) name data sum fs).fs name = none) ∧
      (∀ e, os.removeFault name = some e →
        (cache os (NewChartCache os net dir) name data sum fs).fs name
          = some (data.bytes ++ ((fs name).getD []).drop data.bytes.length))) ∨
    (¬ (data.err = .EOF ∧ fits (os.limit name) data.bytes.length) ∧
      (∃ err, (cache os (NewChartCache os net dir) name data sum fs).val
        = some (.failedToCache name err)) ∧
      (os.removeFault name = none →
        (cache os (NewChartCache os net dir) name data sum fs).fs name = none)) := by
  obtain ⟨fs1, h1, h2⟩ := osOpenFile_dest os name fs ho
  obtain ⟨k1, k2⟩ := fanout_dest os name data fs1 _ h2
  rcases hfan : fanout data [.file (destFile os name) [], sha256New] fs1 with ⟨⟨n, e⟩, ws, fs2⟩
  rw [hfan] at k1 k2
  simp only at k1 k2
  cases e with
  | some err =>
    right; right
    refine ⟨fun hc => by simpa using k1.mpr hc, ⟨err, ?_⟩, fun hrem => ?_⟩
    · simp [cache, NewChartCache, h1, hfan]
    · simp [cache, NewChartCache, h1, hfan, osRemove, hrem, FS.set]
  | none =>
    obtain ⟨hE, hF⟩ := k1.mp rfl
    obtain ⟨c1, c0⟩ := k2 rfl
    have c2 : ws[1]?.getD sha256New = .mem data.bytes none := by simpa using c0
    by_cases hs : sum = sha256Hex data.bytes
    · left
      refine ⟨hE, hF, hs, ?_, ?_⟩
      · simp [cache, NewChartCache, h1, hfan, c2, Writer.Sum, Writer.got, hs, sha256Hex]
      · simp [cache, NewChartCache, h1, hfan, c2, Writer.Sum, Writer.got, hs, sha256Hex, c1]
    · right; left
      have hs2 : ¬ sum = hex (sum256 data.bytes) := hs
      refine ⟨hE, hF, hs, ?_, fun hrem => ?_, fun e hrem => ?_⟩
      · simp [cache, NewChartCache, h1, hfan, c2, Writer.Sum, Writer.got, hs2, sha256Hex]
      · simp [cache, NewChartCache, h1, hfan, c2, Writer.Sum, Writer.got, hs2, osRemove, hrem,
          FS.set]
      · simp [cache, NewChartCache, h1, hfan, c2, Writer.Sum, Writer.got, hs2, osRemove, hrem,
          c1]

theorem Fault.errno_ne (e : Fault) (op name : String) :
    IsNotExist (.PathError op name e.errno) = false := by
  cases e <;> rfl

theorem osOpenFile_rdonly (os : OS) (name : String) (fs : FS) :
    osOpenFile os name O_RDONLY 0 fs =
      (match os.openFault name O_RDONLY with
        | some e => .error (.PathError "open" name e.errno)
        | none =>
          match fs name with
          | some _ => .ok (entryFile os name)
          | none => .error (.PathError "open" name .ENOENT), fs) := by
  have h1 : ¬ (O_RDONLY &&& O_TRUNC ≠ 0 ∧ O_RDONLY &&& 3 ≠ 0) := by decide
  have h2 : ¬ (O_RDONLY &&& O_CREATE ≠ 0) := by decide
  cases ho : os.openFault name O_RDONLY with
  | some e => simp [osOpenFile, ho]
  | none =>
    cases hfs : fs name with
    | none =>
      simp only [osOpenFile, ho, hfs]
      rw [if_neg h2]
    | some c =>
      simp only [osOpenFile, ho, hfs, entryFile]
      rw [if_neg h1]

/-- The operations of `cache`, whatever was injected into the cache. -/
theorem cache_events (os : OS) (cc : ChartCache) (name : String) (data : Reader) (sum : String)
    (fs : FS) :
    (cache os cc name data sum fs).events
        = [.lock, .openFile name (O_CREATE ||| O_WRONLY), .unlock] ∨
      (cache os cc name data sum fs).events
        = [.lock, .openFile name (O_CREATE ||| O_WRONLY), .copy name, .remove name, .unlock] ∨
      (cache os cc name data sum fs).events
        = [.lock, .openFile name (O_CREATE ||| O_WRONLY), .copy name, .unlock] := by
  rcases ho : cc.osOpenFile name (O_CREATE ||| O_WRONLY) 0 fs with ⟨r, fs1⟩
  cases r with
  | error err => simp [cache, ho]
  | ok w =>
    rcases hfan : fanout data [.file w [], sha256New] fs1 with ⟨⟨n, e⟩, ws, fs2⟩
    cases e with
    | some err => simp [cache, ho, hfan]
    | none =>
      simp only [cache, ho, hfan]
      split <;> simp

theorem cache_gets (os : OS) (cc : ChartCache) (name : String) (data : Reader) (sum : String)
    (fs : FS) : gets (cache os cc name data sum fs).events = 0 := by
  rcases cache_events os cc name data sum fs with h | h | h <;> rw [h] <;> rfl

theorem Fetch_stat_fault (os : OS) (net : String → Except Error Response) (dir : String)
    (ci : ChartInfo) (fs : FS) (e : Fault)
    (hs : os.statFault (entryPath (NewChartCache os net dir) ci) = some e) :
    (Fetch os (NewChartCache os net dir) ci fs).val
        = .error (.failedToFetch ci.URL
            (.PathError "stat" (entryPath (NewChartCache os net dir) ci) e.errno)) ∧
      (Fetch os (NewChartCache os net dir) ci fs).fs = fs ∧
      (Fetch os (NewChartCache os net dir) ci fs).events
        = [.stat (entryPath (NewChartCache os net dir) ci)] := by
  simp only [entryPath, NewChartCache] at hs
  simp [Fetch, NewChartCache, osStat, hs, Fault.errno_ne, entryPath]

theorem Fetch_hit (os : OS) (net : String → Except Error Response) (dir : String)
    (ci : ChartInfo) (fs : FS) (c : List Byte)
    (hs : os.statFault (entryPath (NewChartCache os net dir) ci) = none)
    (hfs : fs (entryPath (NewChartCache os net dir) ci) = some c) :
    (Fetch os (NewChartCache os net dir) ci fs).val
        = openResult os ci.URL (entryPath (NewChartCache os net dir) ci) fs ∧
      (Fetch os (NewChartCache os net dir) ci fs).fs = fs ∧
      (Fetch os (NewChartCache os net dir) ci fs).events
        = [.stat (entryPath (NewChartCache os net dir) ci),
            .openFile (entryPath (NewChartCache os net dir) ci) O_RDONLY] := by
  simp only [entryPath, NewChartCache] at hs hfs
  simp only [Fetch, NewChartCache, osStat, hs, hfs, osOpenFile_rdonly, entryPath, openResult]
  cases os.openFault (pathJoin dir (ci.SHA256Sum ++ ".tgz")) O_RDONLY <;> simp

theorem Fetch_get_error (os : OS) (net : String → Except Error Response) (dir : String)
    (ci : ChartInfo) (fs : FS) (err : Error)
    (hs : os.statFault (entryPath (NewChartCache os net dir) ci) = none)
    (hfs : fs (entryPath (NewChartCache os net dir) ci) = none)
    (hg : net ci.URL = .error err) :
    (Fetch os (NewChartCache os net dir) ci fs).val = .error (.failedToFetch ci.URL err) ∧
      (Fetch os (NewChartCache os net dir) ci fs).fs = fs ∧
      (Fetch os (NewChartCache os net dir) ci fs).events
        = [.stat (entryPath (NewChartCache os net dir) ci), .get ci.URL] := by
  simp only [entryPath, NewChartCache] at hs hfs
  simp [Fetch, NewChartCache, osStat, hs, hfs, IsNotExist, hg, entryPath]

theorem Fetch_miss (os : OS) (net : String → Except Error Response) (dir : String)
    (ci : ChartInfo) (fs : FS) (res : Response)
    (hs : os.statFault (entryPath (NewChartCache os net dir) ci) = none)
    (hfs : fs (entryPath (NewChartCache os net dir) ci) = none)
    (hg : net ci.URL = .ok res) :
    (Fetch os (NewChartCache os net dir) ci fs).fs
        = (cache os (NewChartCache os net dir) (entryPath (NewChartCache os net dir) ci)
            res.Body ci.SHA256Sum fs).fs ∧
      (Fetch os (NewChartCache os net dir) ci fs).val =
        (match (cache os (NewChartCache os net dir) (entryPath (NewChartCache os net dir) ci)
            res.Body ci.SHA256Sum fs).val with
          | some err => .error (.failedToFetch ci.URL err)
          | none => openResult os ci.URL (entryPath (NewChartCache os net dir) ci)
              (cache os (NewChartCache os net dir) (entryPath (NewChartCache os net dir) ci)
                res.Body ci.SHA256Sum fs).fs) ∧
      gets (Fetch os (NewChartCache os net dir) ci fs).events = 1 := by
  simp only [entryPath, NewChartCache] at hs hfs
  rcases hc : cache os (NewChartCache os net dir) (entryPath (NewChartCache os net dir) ci)
    res.Body ci.SHA256Sum fs with ⟨v, fs1, ev⟩
  have hev : gets ev = 0 := by
    have := cache_gets os (NewChartCache os net dir) (entryPath (NewChartCache os net dir) ci)
      res.Body ci.SHA256Sum fs
    rwa [hc] at this
  simp only [entryPath, NewChartCache] at hc
  cases v with
  | some err =>
    simp [Fetch, NewChartCache, osStat, hs, hfs, IsNotExist, hg, entryPath, hc, gets, List.filter]
    simpa [gets] using hev
  | none =>
    simp only [Fetch, NewChartCache, osStat, hs, hfs, IsNotExist, hg, entryPath, hc,
      osOpenFile_rdonly, openResult]
    cases os.openFault (pathJoin dir (ci.SHA256Sum ++ ".tgz")) O_RDONLY with
    | some e => simp [gets, List.filter]; simpa [gets] using hev
    | none =>
      cases fs1 (pathJoin dir (ci.SHA256Sum ++ ".tgz")) with
      | none => simp [gets, List.filter]; simpa [gets] using hev
      | some c => simp [gets, List.filter]; simpa [gets] using hev

theorem openResult_ok (os : OS) (url name : String) (fs : FS) (f : File)
    (h : openResult os url name fs = .ok f) :
    f = entryFile os name ∧ os.openFault name O_RDONLY = none ∧ ∃ c, fs name = some c := by
  unfold openResult at h
  cases ho : os.openFault name O_RDONLY with
  | some e => simp [ho] at h
  | none =>
    cases hfs : fs name with
    | none => simp [ho, hfs] at h
    | some c =>
      simp [ho, hfs] at h
      exact ⟨h.symm, rfl, c, rfl⟩

theorem entryFile_ReadAll (os : OS) (name : String) (fs : FS) (c : List Byte)
    (h : fs name = some c) : (entryFile os name).ReadAll fs = c := by
  simp [File.ReadAll, entryFile, h]

theorem run_append (os : OS) (cc : ChartCache) (ci : ChartInfo) (xs ys : List Nat) (s : Sys) :
    run os cc ci (xs ++ ys) s = (run os cc ci xs s).bind (run os cc ci ys) := by
  induction xs generalizing s with
  | nil => rfl
  | cons i xs ih =>
    simp only [List.cons_append, run]
    cases step os cc ci i s with
    | none => rfl
    | some t => exact ih t

theorem Reach.refl (os : OS) (cc : ChartCache) (ci : ChartInfo) (a : FS × Bool × Pc) :
    Reach os cc ci a a := ⟨0, rfl⟩

theorem Reach.trans {os : OS} {cc : ChartCache} {ci : ChartInfo} {a b c : FS × Bool × Pc}
    (h1 : Reach os cc ci a b) (h2 : Reach os cc ci b c) : Reach os cc ci a c := by
  obtain ⟨k1, e1⟩ := h1
  obtain ⟨k2, e2⟩ := h2
  refine ⟨k1 + k2, ?_⟩
  rw [List.replicate_add, run_append, e1]
  exact e2

theorem Reach.one {os : OS} {cc : ChartCache} {ci : ChartInfo} {a b : FS × Bool × Pc}
    (h : stepPc os cc ci a.1 a.2.1 a.2.2 = some b) : Reach os cc ci a b := by
  refine ⟨1, ?_⟩
  obtain ⟨fs, l, pc⟩ := b
  simp [run, step, h]

theorem Read_none_source (ir : IoReader) : ∀ (fs : FS) (p : List Byte) (jr : IoReader)
    (fs1 : FS), ir.Read fs = ((p, none), jr, fs1) →
    ir.source.chunks.length = jr.source.chunks.length + 1 := by
  induction ir with
  | src r =>
    intro fs p jr fs1 h
    cases hc : r.chunks with
    | nil => simp [IoReader.Read, Reader.Read, hc] at h
    | cons c cs =>
      simp [IoReader.Read, Reader.Read, hc] at h
      obtain ⟨-, h2, -⟩ := h
      simp [← h2, IoReader.source, hc]
  | tee r w ih =>
    intro fs p jr fs1 h
    rcases hr : r.Read fs with ⟨⟨p0, e0⟩, r1, fs0⟩
    simp only [IoReader.Read, hr] at h
    by_cases hp : p0.length > 0
    · rw [if_pos hp] at h
      rcases hw : w.Write p0 fs0 with ⟨⟨m, we⟩, w1, fs2⟩
      rw [hw] at h
      cases we with
      | some werr => simp at h
      | none =>
        simp at h
        obtain ⟨⟨-, h1⟩, h2, -⟩ := h
        subst h1
        simpa [← h2, IoReader.source] using ih fs p0 r1 fs0 hr
    · rw [if_neg hp] at h
      simp at h
      obtain ⟨⟨h0, h1⟩, h2, h3⟩ := h
      subst h1
      simpa [← h2, IoReader.source] using ih fs p0 r1 fs0 hr

/-- The bound of `discardReadFrom` is never reached: with any bound above the number of
chunks left in the source the loop gives the result it gives with the bound
`ioCopyDiscard` passes. -/
theorem discardReadFrom_fuel (m : Nat) : ∀ (ir : IoReader) (fs : FS) (n fuel : Nat),
    ir.source.chunks.length = m → m < fuel →
    discardReadFrom fuel ir fs n = discardReadFrom (m + 1) ir fs n := by
  induction m with
  | zero =>
    intro ir fs n fuel hm hf
    obtain ⟨k, rfl⟩ : ∃ k, fuel = k + 1 := ⟨fuel - 1, by omega⟩
    rw [discardReadFrom_succ, discardReadFrom_succ]
    rcases hr : ir.Read fs with ⟨⟨p, e⟩, jr, fs1⟩
    cases e with
    | none =>
      have := Read_none_source ir fs p jr fs1 hr
      omega
    | some err => rfl
  | succ m ih =>
    intro ir fs n fuel hm hf
    obtain ⟨k, rfl⟩ : ∃ k, fuel = k + 1 := ⟨fuel - 1, by omega⟩
    rw [discardReadFrom_succ, discardReadFrom_succ (m + 1)]
    rcases hr : ir.Read fs with ⟨⟨p, e⟩, jr, fs1⟩
    cases e with
    | none =>
      have hs := Read_none_source ir fs p jr fs1 hr
      exact ih jr fs1 (n + p.length) k (by omega) (by omega)
    | some err => rfl

/-- The loop of the copy, step by step, ends where `discardReadFrom` ends. -/
theorem Reach_copy (os : OS) (cc : ChartCache) (ci : ChartInfo) (locked : Bool) (m : Nat) :
    ∀ (ir : IoReader) (fs : FS) (n : Nat), ir.source.chunks.length = m →
    Reach os cc ci (fs, locked, .copy ir n)
      ((discardReadFrom (m + 1) ir fs n).2.2, locked,
        match (discardReadFrom (m + 1) ir fs n).1.2 with
        | none => .check (discardReadFrom (m + 1) ir fs n).2.1
        | some err => .remove err) := by
  induction m with
  | zero =>
    intro ir fs n hm
    rcases hr : ir.Read fs with ⟨⟨p, e⟩, jr, fs1⟩
    cases e with
    | none =>
      have := Read_none_source ir fs p jr fs1 hr
      omega
    | some err =>
      apply Reach.one
      rw [discardReadFrom_succ, hr]
      by_cases he : err = .EOF <;> simp [stepPc, hr, he]
  | succ m ih =>
    intro ir fs n hm
    rcases hr : ir.Read fs with ⟨⟨p, e⟩, jr, fs1⟩
    cases e with
    | none =>
      have hs := Read_none_source ir fs p jr fs1 hr
      have h1 : Reach os cc ci (fs, locked, .copy ir n) (fs1, locked, .copy jr (n + p.length)) := by
        apply Reach.one
        simp [stepPc, hr]
      refine h1.trans ?_
      rw [discardReadFrom_succ (m + 1), hr]
      exact ih jr fs1 (n + p.length) (by omega)
    | some err =>
      apply Reach.one
      rw [discardReadFrom_succ, hr]
      by_cases he : err = .EOF <;> simp [stepPc, hr, he]

/-- A call of `cache` running alone, step by step. -/
theorem Reach_cache (os : OS) (cc : ChartCache) (ci : ChartInfo) (fs : FS) (data : Reader) :
    Reach os cc ci (fs, false, .lock data)
      ((cache os cc (entryPath cc ci) data ci.SHA256Sum fs).fs, false,
        match (cache os cc (entryPath cc ci) data ci.SHA256Sum fs).val with
        | some err => .done (.error (.failedToFetch ci.URL err))
        | none => .reopen) := by
  have h1 : Reach os cc ci (fs, false, .lock data) (fs, true, .openW data) :=
    Reach.one (by simp [stepPc])
  refine h1.trans ?_
  rcases ho : cc.osOpenFile (entryPath cc ci) (O_CREATE ||| O_WRONLY) 0 fs with ⟨r, fs1⟩
  cases r with
  | error err =>
    have h2 : Reach os cc ci (fs, true, .openW data)
        (fs1, true, .unlock (some (.failedToCache (entryPath cc ci) err))) :=
      Reach.one (by simp [stepPc, ho])
    refine h2.trans ?_
    apply Reach.one
    simp [stepPc, cache, ho]
  | ok w =>
    have h2 : Reach os cc ci (fs, true, .openW data)
        (fs1, true, .copy ([Writer.file w [], sha256New].foldl TeeReader (.src data)) 0) :=
      Reach.one (by simp [stepPc, ho])
    refine h2.trans ?_
    have hsrc : ([Writer.file w [], sha256New].foldl TeeReader (.src data)).source.chunks.length
        = data.chunks.length := by
      simp [List.foldl, TeeReader, IoReader.source]
    have h3 := Reach_copy os cc ci true data.chunks.length _ fs1 0 hsrc
    refine h3.trans ?_
    rcases hd : discardReadFrom (data.chunks.length + 1)
      ([Writer.file w [], sha256New].foldl TeeReader (.src data)) fs1 0 with ⟨⟨n, e⟩, jr, fs2⟩
    have hfan : fanout data [.file w [], sha256New] fs1 = ((n, e), jr.writers, fs2) := by
      simp only [fanout, ioCopyDiscard, hsrc, hd]
    cases e with
    | some err =>
      have h4 : Reach os cc ci (fs2, true, .remove err)
          ((osRemove os (entryPath cc ci) fs2).2, true,
            .unlock (some (.failedToCache (entryPath cc ci) err))) :=
        Reach.one (by simp [stepPc])
      refine h4.trans ?_
      apply Reach.one
      simp [stepPc, cache, ho, hfan]
    | none =>
      by_cases hs : ci.SHA256Sum = hex (jr.writers.getD 1 sha256New).Sum
      · have h4 : Reach os cc ci (fs2, true, .check jr) (fs2, true, .unlock none) :=
          Reach.one (by simp only [stepPc, ← hs]; simp)
        refine h4.trans ?_
        apply Reach.one
        simp only [stepPc, cache, ho, hfan, ← hs]
        simp
      · have hs2 : ¬ ci.SHA256Sum = hex (jr.writers[1]?.getD sha256New).Sum := by
          simpa using hs
        have h4 : Reach os cc ci (fs2, true, .check jr)
            (fs2, true, .remove (.mismatch ci.SHA256Sum (hex (jr.writers.getD 1 sha256New).Sum))) :=
          Reach.one (by simp only [stepPc]; simp [hs2])
        refine h4.trans ?_
        have h5 : Reach os cc ci
            (fs2, true, .remove (.mismatch ci.SHA256Sum (hex (jr.writers.getD 1 sha256New).Sum)))
            ((osRemove os (entryPath cc ci) fs2).2, true,
              .unlock (some (.failedToCache (entryPath cc ci)
                (.mismatch ci.SHA256Sum (hex (jr.writers.getD 1 sha256New).Sum))))) :=
          Reach.one (by simp [stepPc])
        refine h5.trans ?_
        apply Reach.one
        simp only [stepPc, cache, ho, hfan]
        simp [hs2]

/-- A call running alone goes, step by step, to the result of `Fetch` and leaves the
file system `Fetch` leaves: the steps of `stepPc` are the steps of `Fetch`. -/
theorem run_alone (os : OS) (cc : ChartCache) (chartInfo : ChartInfo) (fs : FS) :
    ∃ k, run os cc chartInfo (List.replicate k 0) (Sys.init 1 fs)
      = some ⟨(Fetch os cc chartInfo fs).fs, false, [.done (Fetch os cc chartInfo fs).val]⟩ := by
  have key : Reach os cc chartInfo (fs, false, .start)
      ((Fetch os cc chartInfo fs).fs, false, .done (Fetch os cc chartInfo fs).val) := by
    cases hst : cc.osStat (entryPath cc chartInfo) fs with
    | ok info =>
      have h1 : Reach os cc chartInfo (fs, false, .start) (fs, false, .openHit) :=
        Reach.one (by simp [stepPc, hst])
      refine h1.trans ?_
      apply Reach.one
      simp only [entryPath] at hst
      rcases ho : cc.osOpenFile (pathJoin cc.cachePath (chartInfo.SHA256Sum ++ ".tgz"))
        O_RDONLY 0 fs with ⟨r, fs1⟩
      cases r <;> simp [stepPc, Fetch, hst, ho, entryPath]
    | error err =>
      by_cases hn : IsNotExist err = true
      · have h1 : Reach os cc chartInfo (fs, false, .start) (fs, false, .get) :=
          Reach.one (by simp [stepPc, hst, hn])
        refine h1.trans ?_
        cases hg : cc.httpGetter chartInfo.URL with
        | error e =>
          apply Reach.one
          simp only [entryPath] at hst
          simp [stepPc, Fetch, hst, hn, hg]
        | ok res =>
          have h2 : Reach os cc chartInfo (fs, false, .get) (fs, false, .lock res.Body) :=
            Reach.one (by simp [stepPc, hg])
          refine h2.trans ?_
          refine (Reach_cache os cc chartInfo fs res.Body).trans ?_
          simp only [entryPath] at hst
          rcases hc : cache os cc (pathJoin cc.cachePath (chartInfo.SHA256Sum ++ ".tgz"))
            res.Body chartInfo.SHA256Sum fs with ⟨v, fs1, ev⟩
          cases v with
          | some e =>
            simp only [Fetch, hst, hn, hg, hc, entryPath]
            exact Reach.refl _ _ _ _
          | none =>
            apply Reach.one
            rcases ho : cc.osOpenFile (pathJoin cc.cachePath (chartInfo.SHA256Sum ++ ".tgz"))
              O_RDONLY 0 fs1 with ⟨r, fs2⟩
            cases r <;> simp [stepPc, Fetch, hst, hn, hg, hc, ho, entryPath]
      · apply Reach.one
        simp only [entryPath] at hst
        simp [stepPc, Fetch, hst, hn, entryPath]
  exact key

/-- A cache entry that hashes to its checksum, or is absent, is so after `Fetch` as well,
where the removal of a rejected file is not refused: the directory states of the
amended C1 are those sequential calls keep in such an environment. -/
theorem Fetch_keeps_entry (os : OS) (net : String → Except Error Response) (dir : String)
    (chartInfo : ChartInfo) (fs : FS)
    (hrem : os.removeFault (entryPath (NewChartCache os net dir) chartInfo) = none)
    (hinv : ∀ c, fs (entryPath (NewChartCache os net dir) chartInfo) = some c →
      sha256Hex c = chartInfo.SHA256Sum) :
    ∀ c, (Fetch os (NewChartCache os net dir) chartInfo fs).fs
        (entryPath (NewChartCache os net dir) chartInfo) = some c →
      sha256Hex c = chartInfo.SHA256Sum := by
  intro c hc
  cases hs : os.statFault (entryPath (NewChartCache os net dir) chartInfo) with
  | some e =>
    rw [(Fetch_stat_fault os net dir chartInfo fs e hs).2.1] at hc
    exact hinv c hc
  | none =>
    cases hfs : fs (entryPath (NewChartCache os net dir) chartInfo) with
    | some c0 =>
      rw [(Fetch_hit os net dir chartInfo fs c0 hs hfs).2.1] at hc
      exact hinv c hc
    | none =>
      cases hg : net chartInfo.URL with
      | error err =>
        rw [(Fetch_get_error os net dir chartInfo fs err hs hfs hg).2.1] at hc
        exact hinv c hc
      | ok res =>
        obtain ⟨h1, -, -⟩ := Fetch_miss os net dir chartInfo fs res hs hfs hg
        rw [h1] at hc
        cases ho : os.openFault (entryPath (NewChartCache os net dir) chartInfo)
            (O_CREATE ||| O_WRONLY) with
        | some e =>
          rw [(cache_open_fault os net dir _ res.Body chartInfo.SHA256Sum fs e ho).2] at hc
          exact hinv c hc
        | none =>
          rcases cache_opened os net dir _ res.Body chartInfo.SHA256Sum fs ho with
            ⟨-, -, k3, -, k5⟩ | ⟨-, -, -, -, k5, -⟩ | ⟨-, -, k5⟩
          · rw [k5, hfs] at hc
            simp at hc
            rw [← hc, k3]
          · rw [k5 hrem] at hc
            cases hc
          · rw [k5 hrem] at hc
            cases hc

/-- Where the removal of the rejected file is not refused: on a cache miss in which the
GET succeeds, the destination opens and the body is read to its end without I/O error,
a body that does not hash to `chartInfo.SHA256Sum` makes `Fetch` return the error that
wraps the mismatch of the two checksums, and no file is at the cache path afterwards. -/
theorem Fetch_mismatch_removed (os : OS) (net : String → Except Error Response)
    (dir : String) (chartInfo : ChartInfo) (fs : FS) (res : Response)
    (hstat : os.statFault (entryPath (NewChartCache os net dir) chartInfo) = none)
    (hmiss : fs (entryPath (NewChartCache os net dir) chartInfo) = none)
    (hget : net chartInfo.URL = .ok res)
    (hopen : os.openFault (entryPath (NewChartCache os net dir) chartInfo)
      (O_CREATE ||| O_WRONLY) = none)
    (heof : res.Body.err = .EOF)
    (hfit : ∀ l, os.limit (entryPath (NewChartCache os net dir) chartInfo) = some l →
      res.Body.bytes.length ≤ l)
    (hne : sha256Hex res.Body.bytes ≠ chartInfo.SHA256Sum)
    (hrem : os.removeFault (entryPath (NewChartCache os net dir) chartInfo) = none) :
    (Fetch os (NewChartCache os net dir) chartInfo fs).val
        = .error (.failedToFetch chartInfo.URL
            (.failedToCache (entryPath (NewChartCache os net dir) chartInfo)
              (.mismatch chartInfo.SHA256Sum (sha256Hex res.Body.bytes)))) ∧
      (Fetch os (NewChartCache os net dir) chartInfo fs).fs
        (entryPath (NewChartCache os net dir) chartInfo) = none := by
  obtain ⟨h1, h2, -⟩ := Fetch_miss os net dir chartInfo fs res hstat hmiss hget
  rcases cache_opened os net dir _ res.Body chartInfo.SHA256Sum fs hopen with
    ⟨-, -, k3, -, -⟩ | ⟨-, -, -, k4, k5, -⟩ | ⟨k1, -, -⟩
  · exact absurd k3.symm hne
  · rw [h2, h1, k4]
    exact ⟨rfl, k5 hrem⟩
  · exact absurd ⟨heof, hfit⟩ k1

/-- Where the removal of the partial file is not refused: on a cache miss in which the
GET succeeds, a body that breaks after any prefix, or a write that fails during the
copy, makes `Fetch` return an error, and no file is at the cache path afterwards. -/
theorem Fetch_copy_failure_removed (os : OS) (net : String → Except Error Response)
    (dir : String) (chartInfo : ChartInfo) (fs : FS) (res : Response)
    (hstat : os.statFault (entryPath (NewChartCache os net dir) chartInfo) = none)
    (hmiss : fs (entryPath (NewChartCache os net dir) chartInfo) = none)
    (hget : net chartInfo.URL = .ok res)
    (hfail : res.Body.err ≠ .EOF ∨
      ∃ l, os.limit (entryPath (NewChartCache os net dir) chartInfo) = some l ∧
        l < res.Body.bytes.length)
    (hrem : os.removeFault (entryPath (NewChartCache os net dir) chartInfo) = none) :
    (∃ err, (Fetch os (NewChartCache os net dir) chartInfo fs).val = .error err) ∧
      (Fetch os (NewChartCache os net dir) chartInfo fs).fs
        (entryPath (NewChartCache os net dir) chartInfo) = none := by
  obtain ⟨h1, h2, -⟩ := Fetch_miss os net dir chartInfo fs res hstat hmiss hget
  have hno : ¬ (res.Body.err = .EOF ∧
      fits (os.limit (entryPath (NewChartCache os net dir) chartInfo))
        res.Body.bytes.length) := by
    rintro ⟨a, b⟩
    rcases hfail with hf | ⟨l, hl, hlt⟩
    · exact hf a
    · exact absurd (b l hl) (by omega)
  cases hopen : os.openFault (entryPath (NewChartCache os net dir) chartInfo)
      (O_CREATE ||| O_WRONLY) with
  | some e =>
    obtain ⟨k1, k2⟩ := cache_open_fault os net dir _ res.Body chartInfo.SHA256Sum fs e hopen
    rw [h2, h1, k1, k2]
    exact ⟨⟨_, rfl⟩, hmiss⟩
  | none =>
    rcases cache_opened os net dir _ res.Body chartInfo.SHA256Sum fs hopen with
      ⟨k1, k2, -, -, -⟩ | ⟨k1, k2, -, -, -⟩ | ⟨-, ⟨err, k4⟩, k5⟩
    · exact absurd ⟨k1, k2⟩ hno
    · exact absurd ⟨k1, k2⟩ hno
    · rw [h2, h1, k4]
      exact ⟨⟨_, rfl⟩, k5 hrem⟩

/-! ## The claims -/

/-- C1, counterexample: the cache entry of "abc" holds the bytes 1, 2, 3; `Fetch`
returns a handle without error, and what is read from it does not hash to the
checksum. -/
theorem Fetch_hit_unverified :
    (Fetch osFree ccAbc ciAbc staleFS).val = .ok (entryFile osFree abcPath) ∧
      (entryFile osFree abcPath).ReadAll (Fetch osFree ccAbc ciAbc staleFS).fs = [1, 2, 3] ∧
      sha256Hex [1, 2, 3] ≠ ciAbc.SHA256Sum := by
  decide

/-- C1, amended: for every cache directory state in which the file at the cache path, if
there is one, hashes to `chartInfo.SHA256Sum`, every `ChartInfo` and every HTTP
response: if `Fetch` returns a handle without error, the lowercase-hex SHA-256 digest of
the content readable from the handle equals `chartInfo.SHA256Sum`, on the cache-hit path
and on the cache-miss path. -/
theorem Fetch_integrity (os : OS) (net : String → Except Error Response) (dir : String)
    (chartInfo : ChartInfo) (fs : FS) (f : File)
    (hinv : ∀ c, fs (entryPath (NewChartCache os net dir) chartInfo) = some c →
      sha256Hex c = chartInfo.SHA256Sum)
    (hok : (Fetch os (NewChartCache os net dir) chartInfo fs).val = .ok f) :
    sha256Hex (f.ReadAll (Fetch os (NewChartCache os net dir) chartInfo fs).fs)
      = chartInfo.SHA256Sum := by
  cases hs : os.statFault (entryPath (NewChartCache os net dir) chartInfo) with
  | some e =>
    rw [(Fetch_stat_fault os net dir chartInfo fs e hs).1] at hok
    cases hok
  | none =>
    cases hfs : fs (entryPath (NewChartCache os net dir) chartInfo) with
    | some c =>
      obtain ⟨h1, h2, -⟩ := Fetch_hit os net dir chartInfo fs c hs hfs
      rw [h1] at hok
      obtain ⟨hf, -, -⟩ := openResult_ok _ _ _ _ _ hok
      rw [h2, hf, entryFile_ReadAll os _ fs c hfs]
      exact hinv c hfs
    | none =>
      cases hg : net chartInfo.URL with
      | error err =>
        rw [(Fetch_get_error os net dir chartInfo fs err hs hfs hg).1] at hok
        cases hok
      | ok res =>
        obtain ⟨h1, h2, -⟩ := Fetch_miss os net dir chartInfo fs res hs hfs hg
        cases ho : os.openFault (entryPath (NewChartCache os net dir) chartInfo)
            (O_CREATE ||| O_WRONLY) with
        | some e =>
          rw [h2, (cache_open_fault os net dir _ res.Body chartInfo.SHA256Sum fs e ho).1] at hok
          cases hok
        | none =>
          rcases cache_opened os net dir _ res.Body chartInfo.SHA256Sum fs ho with
            ⟨-, -, k3, k4, k5⟩ | ⟨-, -, -, k4, -⟩ | ⟨-, ⟨err, k4⟩, -⟩
          · rw [h2, k4] at hok
            obtain ⟨hf, -, -⟩ := openResult_ok _ _ _ _ _ hok
            rw [h1, hf, entryFile_ReadAll os _ _ _ k5, hfs]
            simp [k3]
          · rw [h2, k4] at hok
            cases hok
          · rw [h2, k4] at hok
            cases hok

/-- C1, witness: the first call for "abc" on the empty cache. -/
theorem Fetch_integrity_witness :
    (Fetch osFree (NewChartCache osFree netAbc "/cache") ciAbc emptyFS).val
        = .ok (entryFile osFree abcPath) ∧
      sha256Hex ((entryFile osFree abcPath).ReadAll
        (Fetch osFree (NewChartCache osFree netAbc "/cache") ciAbc emptyFS).fs) = ciAbc.SHA256Sum :=
  ⟨by decide, Fetch_integrity osFree netAbc "/cache" ciAbc emptyFS (entryFile osFree abcPath)
    (fun _ h => by cases h) (by decide)⟩

/-- C2, the code at the failing input: the cache directory is append-only, the URL
serves "abc" and the checksum is that of the empty content. `Fetch` returns the error
that wraps the mismatch of the two checksums, its `os.Remove` fails and the result is
discarded, so the rejected "abc" stays at the cache path; the next `Fetch` finds it
there and returns it as a cache hit. -/
theorem Fetch_mismatch_left_behind :
    (Fetch osAppendOnly (NewChartCache osAppendOnly netAbc "/cache") ciOther emptyFS).val
        = .error (.failedToFetch ciOther.URL
            (.failedToCache otherPath (.mismatch ciOther.SHA256Sum ciAbc.SHA256Sum))) ∧
      (Fetch osAppendOnly (NewChartCache osAppendOnly netAbc "/cache") ciOther emptyFS).fs
        otherPath = some abc ∧
      (Fetch osAppendOnly (NewChartCache osAppendOnly netAbc "/cache") ciOther
        (Fetch osAppendOnly (NewChartCache osAppendOnly netAbc "/cache") ciOther
          emptyFS).fs).val = .ok (entryFile osAppendOnly otherPath) ∧
      (entryFile osAppendOnly otherPath).ReadAll
        (Fetch osAppendOnly (NewChartCache osAppendOnly netAbc "/cache") ciOther
          (Fetch osAppendOnly (NewChartCache osAppendOnly netAbc "/cache") ciOther
            emptyFS).fs).fs = abc ∧
      sha256Hex abc ≠ ciOther.SHA256Sum := by
  decide

/-- C3, the code at the failing input: the cache directory is append-only and the body
breaks after "ab". `Fetch` returns the error of the body, its `os.Remove` fails and the
result is discarded, so the partial file "ab" stays at the cache path; the next `Fetch`
finds it there and returns it as a cache hit. -/
theorem Fetch_partial_left_behind :
    (Fetch osAppendOnly (NewChartCache osAppendOnly netBroken "/cache") ciAbc emptyFS).val
        = .error (.failedToFetch ciAbc.URL
            (.failedToCache abcPath (.other "connection reset by peer"))) ∧
      (Fetch osAppendOnly (NewChartCache osAppendOnly netBroken "/cache") ciAbc emptyFS).fs
        abcPath = some [97, 98] ∧
      (Fetch osAppendOnly (NewChartCache osAppendOnly netBroken "/cache") ciAbc
        (Fetch osAppendOnly (NewChartCache osAppendOnly netBroken "/cache") ciAbc
          emptyFS).fs).val = .ok (entryFile osAppendOnly abcPath) ∧
      (entryFile osAppendOnly abcPath).ReadAll
        (Fetch osAppendOnly (NewChartCache osAppendOnly netBroken "/cache") ciAbc
          (Fetch osAppendOnly (NewChartCache osAppendOnly netBroken "/cache") ciAbc
            emptyFS).fs).fs = [97, 98] ∧
      sha256Hex [97, 98] ≠ ciAbc.SHA256Sum := by
  decide

/-- C4: if a first `Fetch` on a cache with no entry for the checksum succeeds, then a
second `Fetch` with the same `ChartInfo` on the resulting state issues no HTTP GET,
succeeds, and returns a handle with the same content as the first; the two calls
together perform at most one GET. -/
theorem Fetch_twice (os : OS) (net : String → Except Error Response) (dir : String)
    (chartInfo : ChartInfo) (fs : FS) (f1 : File)
    (hmiss : fs (entryPath (NewChartCache os net dir) chartInfo) = none)
    (hok : (Fetch os (NewChartCache os net dir) chartInfo fs).val = .ok f1) :
    gets (Fetch os (NewChartCache os net dir) chartInfo
        (Fetch os (NewChartCache os net dir) chartInfo fs).fs).events = 0 ∧
      (∃ f2, (Fetch os (NewChartCache os net dir) chartInfo
          (Fetch os (NewChartCache os net dir) chartInfo fs).fs).val = .ok f2 ∧
        f2.ReadAll (Fetch os (NewChartCache os net dir) chartInfo
            (Fetch os (NewChartCache os net dir) chartInfo fs).fs).fs
          = f1.ReadAll (Fetch os (NewChartCache os net dir) chartInfo fs).fs) ∧
      gets (Fetch os (NewChartCache os net dir) chartInfo fs).events
        + gets (Fetch os (NewChartCache os net dir) chartInfo
            (Fetch os (NewChartCache os net dir) chartInfo fs).fs).events ≤ 1 := by
  cases hs : os.statFault (entryPath (NewChartCache os net dir) chartInfo) with
  | some e =>
    rw [(Fetch_stat_fault os net dir chartInfo fs e hs).1] at hok
    cases hok
  | none =>
    cases hg : net chartInfo.URL with
    | error err =>
      rw [(Fetch_get_error os net dir chartInfo fs err hs hmiss hg).1] at hok
      cases hok
    | ok res =>
      obtain ⟨h1, h2, h3⟩ := Fetch_miss os net dir chartInfo fs res hs hmiss hg
      have hopen : ∃ c, openResult os chartInfo.URL
          (entryPath (NewChartCache os net dir) chartInfo)
          (Fetch os (NewChartCache os net dir) chartInfo fs).fs = .ok f1 ∧
          (Fetch os (NewChartCache os net dir) chartInfo fs).fs
            (entryPath (NewChartCache os net dir) chartInfo) = some c := by
        rw [h2] at hok
        cases hv : (cache os (NewChartCache os net dir)
            (entryPath (NewChartCache os net dir) chartInfo) res.Body chartInfo.SHA256Sum fs).val with
        | some err => rw [hv] at hok; cases hok
        | none =>
          rw [hv] at hok
          rw [h1]
          obtain ⟨-, -, c, hc⟩ := openResult_ok _ _ _ _ _ hok
          exact ⟨c, hok, hc⟩
      obtain ⟨c, ho, hc⟩ := hopen
      obtain ⟨k1, k2, k3⟩ := Fetch_hit os net dir chartInfo _ c hs hc
      have hg2 : gets (Fetch os (NewChartCache os net dir) chartInfo
          (Fetch os (NewChartCache os net dir) chartInfo fs).fs).events = 0 := by
        rw [k3]; rfl
      refine ⟨hg2, ⟨f1, ?_, ?_⟩, ?_⟩
      · rw [k1, ho]
      · rw [k2]
      · rw [hg2, h3]

/-- C4, witness: two calls for "abc", the first on the empty cache. -/
theorem Fetch_twice_witness :
    gets (Fetch osFree (NewChartCache osFree netAbc "/cache") ciAbc
        (Fetch osFree (NewChartCache osFree netAbc "/cache") ciAbc emptyFS).fs).events = 0 ∧
      (∃ f2, (Fetch osFree (NewChartCache osFree netAbc "/cache") ciAbc
          (Fetch osFree (NewChartCache osFree netAbc "/cache") ciAbc emptyFS).fs).val = .ok f2 ∧
        f2.ReadAll (Fetch osFree (NewChartCache osFree netAbc "/cache") ciAbc
            (Fetch osFree (NewChartCache osFree netAbc "/cache") ciAbc emptyFS).fs).fs
          = (entryFile osFree abcPath).ReadAll
              (Fetch osFree (NewChartCache osFree netAbc "/cache") ciAbc emptyFS).fs) ∧
      gets (Fetch osFree (NewChartCache osFree netAbc "/cache") ciAbc emptyFS).events
        + gets (Fetch osFree (NewChartCache osFree netAbc "/cache") ciAbc
            (Fetch osFree (NewChartCache osFree netAbc "/cache") ciAbc emptyFS).fs).events ≤ 1 :=
  Fetch_twice osFree netAbc "/cache" ciAbc emptyFS (entryFile osFree abcPath) rfl (by decide)

/-- C5, counterexample: the GET is answered 404 with a body that hashes to the
checksum; `Fetch` returns a handle and the body is now the cache entry. And where the
body of the 404 does not hash to the checksum and the cache directory is append-only,
`Fetch` returns an error and the body stays at the cache path. -/
theorem Fetch_404_cached :
    net404 ciAbc.URL = .ok ⟨404, bodyAbc⟩ ∧
      (Fetch osFree (NewChartCache osFree net404 "/cache") ciAbc emptyFS).val
        = .ok (entryFile osFree abcPath) ∧
      (Fetch osFree (NewChartCache osFree net404 "/cache") ciAbc emptyFS).fs abcPath
        = some abc ∧
      (Fetch osAppendOnly (NewChartCache osAppendOnly net404 "/cache") ciOther emptyFS).val
        = .error (.failedToFetch ciOther.URL
            (.failedToCache otherPath (.mismatch ciOther.SHA256Sum ciAbc.SHA256Sum))) ∧
      (Fetch osAppendOnly (NewChartCache osAppendOnly net404 "/cache") ciOther emptyFS).fs
        otherPath = some abc := by
  decide

/-- C5, amended: on a cache miss, if the GET returns a transport-level error then
`Fetch` returns an error wrapping it and the file system is unchanged; and if the GET
returns a response, whatever its status, whose body does not hash to
`chartInfo.SHA256Sum`, then `Fetch` returns an error, and no file exists at the cache
path afterwards where the removal of the file is not refused. -/
theorem Fetch_transport (os : OS) (net : String → Except Error Response) (dir : String)
    (chartInfo : ChartInfo) (fs : FS)
    (hstat : os.statFault (entryPath (NewChartCache os net dir) chartInfo) = none)
    (hmiss : fs (entryPath (NewChartCache os net dir) chartInfo) = none) :
    (∀ err, net chartInfo.URL = .error err →
      (Fetch os (NewChartCache os net dir) chartInfo fs).val
          = .error (.failedToFetch chartInfo.URL err) ∧
        (Fetch os (NewChartCache os net dir) chartInfo fs).fs = fs) ∧
    (∀ res, net chartInfo.URL = .ok res →
      sha256Hex res.Body.bytes ≠ chartInfo.SHA256Sum →
      (∃ err, (Fetch os (NewChartCache os net dir) chartInfo fs).val = .error err) ∧
        (os.removeFault (entryPath (NewChartCache os net dir) chartInfo) = none →
          (Fetch os (NewChartCache os net dir) chartInfo fs).fs
            (entryPath (NewChartCache os net dir) chartInfo) = none)) := by
  refine ⟨fun err hg => ?_, fun res hg hne => ?_⟩
  · obtain ⟨h1, h2, -⟩ := Fetch_get_error os net dir chartInfo fs err hstat hmiss hg
    exact ⟨h1, h2⟩
  · obtain ⟨h1, h2, -⟩ := Fetch_miss os net dir chartInfo fs res hstat hmiss hg
    cases ho : os.openFault (entryPath (NewChartCache os net dir) chartInfo)
        (O_CREATE ||| O_WRONLY) with
    | some e =>
      obtain ⟨k1, k2⟩ := cache_open_fault os net dir _ res.Body chartInfo.SHA256Sum fs e ho
      rw [h2, h1, k1, k2]
      exact ⟨⟨_, rfl⟩, fun _ => hmiss⟩
    | none =>
      rcases cache_opened os net dir _ res.Body chartInfo.SHA256Sum fs ho with
        ⟨-, -, k3, -, -⟩ | ⟨-, -, -, k4, k5, -⟩ | ⟨-, ⟨err, k4⟩, k5⟩
      · exact absurd k3.symm hne
      · rw [h2, h1, k4]
        exact ⟨⟨_, rfl⟩, k5⟩
      · rw [h2, h1, k4]
        exact ⟨⟨_, rfl⟩, k5⟩

/-- C5, witness: a network that cannot be reached, and a 404 whose body does not hash
to the checksum. -/
theorem Fetch_transport_witness :
    ((Fetch osFree (NewChartCache osFree netDown "/cache") ciAbc emptyFS).val
        = .error (.failedToFetch ciAbc.URL (.other "no such host")) ∧
      (Fetch osFree (NewChartCache osFree netDown "/cache") ciAbc emptyFS).fs = emptyFS) ∧
    ((∃ err, (Fetch osFree (NewChartCache osFree net404 "/cache") ciOther emptyFS).val
        = .error err) ∧
      (Fetch osFree (NewChartCache osFree net404 "/cache") ciOther emptyFS).fs
        (entryPath (NewChartCache osFree net404 "/cache") ciOther) = none) :=
  ⟨(Fetch_transport osFree netDown "/cache" ciAbc emptyFS rfl rfl).1 (.other "no such host")
      rfl,
    ((Fetch_transport osFree net404 "/cache" ciOther emptyFS rfl rfl).2 ⟨404, bodyAbc⟩ rfl
      (by decide)).1,
    ((Fetch_transport osFree net404 "/cache" ciOther emptyFS rfl rfl).2 ⟨404, bodyAbc⟩ rfl
      (by decide)).2 rfl⟩

/-- C6: for every cache, whatever was injected into it, if the existence probe fails
with an error other than "does not exist", then `Fetch` returns an error wrapping that
error, leaves the file system as it was, and performs nothing but the probe: no HTTP
GET, no open. -/
theorem Fetch_probe_error (os : OS) (cc : ChartCache) (chartInfo : ChartInfo) (fs : FS) (err : Error)
    (hprobe : cc.osStat (entryPath cc chartInfo) fs = .error err)
    (hother : IsNotExist err = false) :
    (Fetch os cc chartInfo fs).val = .error (.failedToFetch chartInfo.URL err) ∧
      (Fetch os cc chartInfo fs).fs = fs ∧
      (Fetch os cc chartInfo fs).events = [.stat (entryPath cc chartInfo)] := by
  simp only [entryPath] at hprobe
  simp [Fetch, hprobe, hother, entryPath]

/-- C6, witness: every probe is refused with EACCES. -/
theorem Fetch_probe_error_witness :
    (Fetch osDenied (NewChartCache osDenied netAbc "/cache") ciAbc emptyFS).val
        = .error (.failedToFetch ciAbc.URL
            (.PathError "stat" (entryPath (NewChartCache osDenied netAbc "/cache") ciAbc)
              .EACCES)) ∧
      (Fetch osDenied (NewChartCache osDenied netAbc "/cache") ciAbc emptyFS).fs = emptyFS ∧
      (Fetch osDenied (NewChartCache osDenied netAbc "/cache") ciAbc emptyFS).events
        = [.stat (entryPath (NewChartCache osDenied netAbc "/cache") ciAbc)] :=
  Fetch_probe_error osDenied (NewChartCache osDenied netAbc "/cache") ciAbc emptyFS
    (.PathError "stat" (entryPath (NewChartCache osDenied netAbc "/cache") ciAbc) .EACCES)
    rfl rfl

/-- C7, counterexample: the path holds five bytes, the source delivers "abc" and the
expected checksum is that of "abc"; `cache` returns success, the file holds "abc"
followed by the last two of the old bytes, and it does not hash to the checksum. -/
theorem cache_keeps_tail :
    (cache osFree ccAbc abcPath bodyAbc ciAbc.SHA256Sum longFS).val = none ∧
      (cache osFree ccAbc abcPath bodyAbc ciAbc.SHA256Sum longFS).fs abcPath
        = some [97, 98, 99, 4, 5] ∧
      bodyAbc.bytes = [97, 98, 99] ∧
      sha256Hex [97, 98, 99, 4, 5] ≠ ciAbc.SHA256Sum := by
  decide

/-- C7, amended: for every path, source stream, expected checksum and prior file system
state in which the path holds no file or a file no longer than the source stream, if
`cache` returns success then the file at the path contains exactly the bytes of the
source stream and their lowercase-hex SHA-256 digest equals the expected checksum. -/
theorem cache_success (os : OS) (net : String → Except Error Response) (dir : String)
    (filePath : String) (data : Reader) (sha256sum : String) (fs : FS)
    (hprior : ∀ c, fs filePath = some c → c.length ≤ data.bytes.length)
    (hok : (cache os (NewChartCache os net dir) filePath data sha256sum fs).val = none) :
    (cache os (NewChartCache os net dir) filePath data sha256sum fs).fs filePath
        = some data.bytes ∧
      sha256Hex data.bytes = sha256sum := by
  cases ho : os.openFault filePath (O_CREATE ||| O_WRONLY) with
  | some e =>
    rw [(cache_open_fault os net dir _ data sha256sum fs e ho).1] at hok
    cases hok
  | none =>
    rcases cache_opened os net dir _ data sha256sum fs ho with
      ⟨-, -, k3, -, k5⟩ | ⟨-, -, -, k4, -⟩ | ⟨-, ⟨err, k4⟩, -⟩
    · refine ⟨?_, k3.symm⟩
      rw [k5]
      cases hfs : fs filePath with
      | none => simp
      | some c => simp [List.drop_eq_nil_of_le (hprior c hfs)]
    · rw [k4] at hok; cases hok
    · rw [k4] at hok; cases hok

/-- C7, witness: the stream "abc" written to a path that holds no file. -/
theorem cache_success_witness :
    (cache osFree (NewChartCache osFree netAbc "/cache") abcPath bodyAbc ciAbc.SHA256Sum emptyFS).fs
        abcPath = some bodyAbc.bytes ∧
      sha256Hex bodyAbc.bytes = ciAbc.SHA256Sum :=
  cache_success osFree netAbc "/cache" abcPath bodyAbc ciAbc.SHA256Sum emptyFS
    (fun _ h => by cases h) (by decide)

/-- C8: for every reader that delivers the bytes `b` and then ends in `io.EOF`, in any
chunking, and every list of writers that accept every write, `fanout` returns
`(len(b), nil)` and every writer has received exactly `b` after what it had received
before. -/
theorem fanout_delivers (r : Reader) (ws : List Writer) (fs : FS) (hr : r.err = .EOF)
    (hws : ∀ x ∈ ws, x.acceptsAll = true) :
    (fanout r ws fs).1 = (r.bytes.length, none) ∧
      (fanout r ws fs).2.1.map Writer.got = ws.map (fun x => x.got ++ r.bytes) := by
  have hs : (ws.foldl TeeReader (.src r)).source = r := by
    rw [foldl_tee_source]; rfl
  have hw : (ws.foldl TeeReader (.src r)).writers = ws := by
    rw [foldl_tee_writers]; simp [IoReader.writers]
  obtain ⟨jr, fs1, h1, h2⟩ := copy_accepting r.chunks (ws.foldl TeeReader (.src r)) fs 0
    (by rw [hs]) (by rw [hs]; exact hr) (by rw [hw]; exact hws)
  rw [hs, hw] at h2
  rw [hs] at h1
  simp [fanout, ioCopyDiscard, hs, h1, h2]

/-- C8, witness: "abc" in two pieces into a file, a hash and a sink that already holds
a byte. -/
theorem fanout_delivers_witness :
    (fanout bodyAbc [.file (destFile osFree "f") [], sha256New, .mem [7] none]
        (emptyFS.set "f" (some []))).1 = (bodyAbc.bytes.length, none) ∧
      (fanout bodyAbc [.file (destFile osFree "f") [], sha256New, .mem [7] none]
          (emptyFS.set "f" (some []))).2.1.map Writer.got
        = [Writer.file (destFile osFree "f") [], sha256New, .mem [7] none].map
            (fun x => x.got ++ bodyAbc.bytes) :=
  fanout_delivers bodyAbc [.file (destFile osFree "f") [], sha256New, .mem [7] none]
    (emptyFS.set "f" (some [])) rfl (by decide)

/-- C9, counterexample: a call on the empty cache probes first and takes the mutex
third, after the GET: its probe happens while the mutex is not held. -/
theorem Fetch_probe_unlocked :
    (Fetch osFree ccAbc ciAbc emptyFS).events
        = [.stat abcPath, .get "http://x/y.tgz", .lock,
            .openFile abcPath (O_CREATE ||| O_WRONLY), .copy abcPath, .unlock,
            .openFile abcPath O_RDONLY] ∧
      probesUnderLock false (Fetch osFree ccAbc ciAbc emptyFS).events = false := by
  decide

/-- C9, amended: in every execution of `Fetch`, whatever was injected into the cache,
the write-and-verify sequence is a single critical section of the mutex: the mutex is
taken at most once, when free; the destination is opened for writing, copied into and,
when rejected, removed only while it is held; and it is released when the sequence has
ended, on every path. -/
theorem Fetch_lock_discipline (os : OS) (cc : ChartCache) (chartInfo : ChartInfo) (fs : FS) :
    lockDiscipline .before (Fetch os cc chartInfo fs).events = true := by
  have hw : (O_CREATE ||| O_WRONLY) &&& 3 != 0 := by decide
  have hr : (O_RDONLY &&& 3 != 0) = false := by decide
  unfold Fetch
  simp only
  split
  · split <;> simp [lockDiscipline, Event.writes, hr]
  · split
    · simp [lockDiscipline, Event.writes]
    · split
      · simp [lockDiscipline, Event.writes]
      · rename_i res _
        split
        · rename_i err fs1 ev hc
          have hev : ev = (cache os cc (pathJoin cc.cachePath (chartInfo.SHA256Sum ++ ".tgz"))
              res.Body chartInfo.SHA256Sum fs).events := by rw [hc]
          rcases cache_events os cc (pathJoin cc.cachePath (chartInfo.SHA256Sum ++ ".tgz"))
            res.Body chartInfo.SHA256Sum fs with h | h | h <;>
            simp [hev, h, lockDiscipline, Event.writes, hw]
        · rename_i fs1 ev hc
          have hev : ev = (cache os cc (pathJoin cc.cachePath (chartInfo.SHA256Sum ++ ".tgz"))
              res.Body chartInfo.SHA256Sum fs).events := by rw [hc]
          split <;>
          rcases cache_events os cc (pathJoin cc.cachePath (chartInfo.SHA256Sum ++ ".tgz"))
            res.Body chartInfo.SHA256Sum fs with h | h | h <;>
            simp [hev, h, lockDiscipline, Event.writes, hw, hr]

/-- C10, the code at the failing input: of two concurrent calls for "abc" on the empty
cache, the second probes while the first has copied "ab"; both return a handle, and the
second reads "ab", which does not hash to the checksum. -/
theorem torn_read :
    (run osFree ccAbc ciAbc tornSchedule (Sys.init 2 emptyFS)).map Sys.calls
        = some [.consumed (entryFile osFree abcPath) abc,
                .consumed (entryFile osFree abcPath) [97, 98]] ∧
      sha256Hex [97, 98] ≠ ciAbc.SHA256Sum := by
  decide

end Helm
